import Mathlib

/-!
Verification of the jj2 client (packet codec, dispatcher, transport driver)
against its natural-language specification.

The development is a shallow embedding of the Python sources:
* `src/jj2/protocols/game.py`  — `GamePayload` (checksum, load), the packet
  schemas (written against the `construct` combinator library), the
  `GameProtocol` transport driver (`send`, `data_received`,
  `datagram_received`, `submit`);
* `src/jj2/lib/payload.py`     — `Payload` / `AbstractPayload` codec core;
* `src/jj2/lib/protocol.py`    — the dispatcher (`Protocol.handle`,
  `call_handlers`, `configure`, `_PrioritizedHandler`, CPython's `heapq`).

Bytes are modelled as `List Nat` with entries below 256; Python `str` values
decoded from the one-byte cp1250 code page are kept as their code-unit lists
(cp1250 is a partial bijection between bytes and characters, so equality of
decoded packets is equality of these lists).
-/

namespace JJ2

/-! ### UDP checksum (`GamePayload.checksum`, game.py lines 477-484)

The Python accumulates `lsb`/`msb` as unbounded ints over
`arr = bytes((79, 79)) + serialized` from index 2 and reduces mod 251 once at
the end; `Byte.build` then emits each reduced value as one byte. -/

/-- The exact (unreduced) accumulator pair after folding the byte list:
`lsb += b; msb += lsb` for each byte. -/
def checksumAccum (bytes : List Nat) : Nat × Nat :=
  bytes.foldl (fun p b => (p.1 + b, p.2 + (p.1 + b))) (1, 1)

/-- `GamePayload.checksum`: prepend `(79, 79)`, fold from index 2 (i.e. over
`serialized` itself), reduce each component mod 251 once at the end. -/
def checksum (serialized : List Nat) : List Nat :=
  let arr := [79, 79] ++ serialized
  let acc := checksumAccum (arr.drop 2)
  [acc.1 % 251, acc.2 % 251]

/-- The specification's per-step formulation: starting `(1, 1)`, iterate
`lsb = (lsb + byte) mod 251; msb = (msb + lsb) mod 251` over the bytes of
`(0x4F, 0x4F, b…)` from index 2. -/
def checksumSpecAccum (bytes : List Nat) : Nat × Nat :=
  bytes.foldl (fun p b => ((p.1 + b) % 251, (p.2 + ((p.1 + b) % 251)) % 251)) (1, 1)

/-- Spec-side checksum: the prefix `[lsb, msb]` of the per-step fold. -/
def checksumSpec (b : List Nat) : List Nat :=
  let arr := [79, 79] ++ b
  let acc := checksumSpecAccum (arr.drop 2)
  [acc.1, acc.2]

/-- The two folds agree pairwise mod 251 from any matching starting pair. -/
theorem checksumAccum_mod (bytes : List Nat) :
    ∀ a b : Nat,
      ((bytes.foldl (fun p x => (p.1 + x, p.2 + (p.1 + x))) (a, b)).1 % 251,
       (bytes.foldl (fun p x => (p.1 + x, p.2 + (p.1 + x))) (a, b)).2 % 251) =
      bytes.foldl (fun p x => ((p.1 + x) % 251, (p.2 + ((p.1 + x) % 251)) % 251))
        (a % 251, b % 251) := by
  induction bytes with
  | nil => intro a b; simp
  | cons x xs ih =>
    intro a b
    simp only [List.foldl_cons]
    rw [ih (a + x) (b + (a + x))]
    have h1 : (a + x) % 251 = (a % 251 + x) % 251 := by omega
    have h2 : (b + (a + x)) % 251 = (b % 251 + (a % 251 + x) % 251) % 251 := by omega
    rw [h1, h2]

/-- C3: the UDP checksum function returns the 2-byte prefix `[lsb, msb]`
obtained by starting `(lsb, msb) = (1, 1)` and folding over the bytes of
`(0x4F, 0x4F, b…)` from index 2 with `lsb = (lsb + byte) mod 251` and
`msb = (msb + lsb) mod 251` at each step: the code's single final reduction
mod 251 agrees, in exact integer arithmetic, with the per-step reduction. -/
theorem checksum_eq_per_step_fold (b : List Nat) : checksum b = checksumSpec b := by
  have h := checksumAccum_mod b 1 1
  simp only [checksum, checksumSpec, checksumAccum, checksumSpecAccum,
    List.drop_succ_cons, List.drop_zero, List.cons_append, List.nil_append]
  have h1 : (1 : Nat) % 251 = 1 := by norm_num
  rw [h1] at h
  exact List.cons_eq_cons.mpr ⟨congrArg Prod.fst h ▸ rfl,
    List.cons_eq_cons.mpr ⟨congrArg Prod.snd h ▸ rfl, rfl⟩⟩

/-! ### The `construct` schema combinators used by game.py

The packet schemas are declared with the `construct` library.  We embed the
combinators the schemas use as a deep syntax `Con` with a parser
(`construct`'s `parse`, which reads a prefix of the byte list and ignores
trailing bytes) and a builder (`construct`'s `build`).  Parsed/built Python
values (ints, bools, bytes, cp1250 strings as their code-unit lists, lists,
`Container`s, `None`) are the type `Value`.

Struct chains are written with `scons`/`snil`; a field
`name=If(this.dep, c)` (`ConstructIf`) is `sconsIf name dep c`, whose
condition reads the already-processed sibling fields (the only use,
`ClientDisconnect.reason`, refers to the directly preceding field).
`deadSwitch` models the two `Switch(Byte, {...})` fields of
`ServerDetails.extras`: their key function is the `Byte` object itself, not
a context expression, so the lookup never matches a case and `construct`
falls back to the default `Pass`, which parses `None` without consuming
input and builds nothing. -/

inductive Value where
  | vnat (n : Nat)
  | vint (i : Int)
  | vbool (b : Bool)
  | vbytes (bs : List Nat)
  | vlist (vs : List Value)
  | vstruct (kvs : List (String × Value))
  | vnone
  deriving Repr

/-- Bit-level fields of a `BitStruct` (always one whole byte in game.py). -/
inductive BitCon where
  | padding (n : Nat)
  | bflag
  | bbytes (n : Nat)
  deriving Repr

inductive Con where
  /-- `size`-byte unsigned integer; `le` selects little-endian.
  `Byte = uint 1 _`, `Short = Int16ub = uint 2 false`, `Int = Int32ub =
  uint 4 false`, `Int16ul = uint 2 true`, `Int32ul = uint 4 true`. -/
  | uint (size : Nat) (le : Bool)
  /-- `Int8sb`: one signed byte, two's complement. -/
  | int8sb
  /-- `Flag`: one byte, nonzero parses `True`; builds `\x01`/`\x00`. -/
  | flag
  /-- `Bytes(n)`: a fixed-length byte string. -/
  | bytesN (n : Nat)
  /-- `Array(n, c)` (`c[n]` in game.py): exactly `n` elements. -/
  | arrayN (n : Nat) (c : Con)
  /-- `PascalString(Byte, "cp1250")`: one length byte then the code units. -/
  | pascalString
  /-- `CString("cp1250")`: code units until a NUL terminator. -/
  | cstring
  /-- `GreedyBytes`, and `GreedyString("cp1250")` at the code-unit level. -/
  | greedyBytes
  /-- `PrefixedArray(Byte, c)`: one count byte then that many elements. -/
  | prefixedArray (c : Con)
  /-- `GreedyRange(c)`: elements until parse failure or end of input. -/
  | greedyRange (c : Con)
  /-- `Optional(c) = Select(c, Pass)`. -/
  | optionalC (c : Con)
  /-- End of a struct chain. -/
  | snil
  /-- A struct field `name=c` followed by the rest of the chain. -/
  | scons (name : String) (c : Con) (rest : Con)
  /-- A struct field `name=If(this.dep, c)`. -/
  | sconsIf (name : String) (dep : String) (c : Con) (rest : Con)
  /-- A `Switch` whose key function is a construct object (never a case key):
  always the default `Pass`. -/
  | deadSwitch
  /-- `BitStruct(...)` over one byte, MSB first. -/
  | bitStructC (fs : List (String × BitCon))
  /-- `Bitwise(Array(8, BitsSwapped(Bytes(4))))` of `_SpectatorList`:
  four bytes as eight groups of four bits, each group bit-swapped. -/
  | spectatorBits
  deriving Repr

/-- Little-endian byte list of `n`, `size` bytes. -/
def leBytes : Nat → Nat → List Nat
  | 0, _ => []
  | s + 1, n => n % 256 :: leBytes s (n / 256)

/-- Big-endian byte list of `n`, `size` bytes. -/
def beBytes (size n : Nat) : List Nat := (leBytes size n).reverse

/-- The value of a little-endian byte list. -/
def leVal (bs : List Nat) : Nat := bs.foldr (fun b a => 256 * a + b) 0

/-- The value of a big-endian byte list. -/
def beVal (bs : List Nat) : Nat := leVal bs.reverse

/-- Split off exactly `n` leading bytes, or fail. -/
def takeN (n : Nat) (bs : List Nat) : Option (List Nat × List Nat) :=
  if n ≤ bs.length then some (bs.take n, bs.drop n) else none

/-- Code units up to the first NUL, and the remainder after it. -/
def splitCString : List Nat → Option (List Nat × List Nat)
  | [] => none
  | b :: rest =>
    if b = 0 then some ([], rest)
    else (splitCString rest).map fun p => (b :: p.1, p.2)

/-- Python truthiness of a parsed value (`if this.dep`). -/
def truthy : Value → Bool
  | .vbool b => b
  | .vnat n => n != 0
  | .vint i => i != 0
  | .vbytes s => !s.isEmpty
  | .vlist vs => !vs.isEmpty
  | .vstruct kvs => !kvs.isEmpty
  | .vnone => false

/-- Field lookup in a parsed container (`None` when absent). -/
def lookupV (m : String) : List (String × Value) → Value
  | [] => .vnone
  | (n, v) :: rest => if n = m then v else lookupV m rest

/-- The eight bits of a byte, most significant first. -/
def bits8 (b : Nat) : List Nat :=
  [b / 128 % 2, b / 64 % 2, b / 32 % 2, b / 16 % 2,
   b / 8 % 2, b / 4 % 2, b / 2 % 2, b % 2]

/-- The byte with the given bits, most significant first. -/
def byteOfBits (bits : List Nat) : Nat := bits.foldl (fun a b => 2 * a + b) 0

/-- Parse the bit-level fields of a `BitStruct` from a bit list. -/
def parseBits : List (String × BitCon) → List Nat →
    Option (List (String × Value) × List Nat)
  | [], bits => some ([], bits)
  | (n, bc) :: fs, bits =>
    match bc with
    | .padding k =>
      if k ≤ bits.length then
        (parseBits fs (bits.drop k)).map fun p => ((n, .vnone) :: p.1, p.2)
      else none
    | .bflag =>
      match bits with
      | [] => none
      | b :: rest =>
        (parseBits fs rest).map fun p => ((n, .vbool (b != 0)) :: p.1, p.2)
    | .bbytes k =>
      if k ≤ bits.length then
        (parseBits fs (bits.drop k)).map fun p =>
          ((n, .vbytes (bits.take k)) :: p.1, p.2)
      else none

/-- Build the bit-level fields of a `BitStruct` into a bit list. -/
def buildBits : List (String × BitCon) → List (String × Value) → Option (List Nat)
  | [], [] => some []
  | (n, bc) :: fs, (n', v) :: kvs =>
    if n' = n then
      match bc, v with
      | .padding k, _ => (buildBits fs kvs).map fun t => List.replicate k 0 ++ t
      | .bflag, .vbool b => (buildBits fs kvs).map fun t => (if b then 1 else 0) :: t
      | .bbytes k, .vbytes bits =>
        if bits.length = k then (buildBits fs kvs).map fun t => bits ++ t else none
      | _, _ => none
    else none
  | _, _ => none

/-- Validity of the bit-level fields of a `BitStruct`. -/
def validBits : List (String × BitCon) → List (String × Value) → Bool
  | [], [] => true
  | (n, bc) :: fs, (n', v) :: kvs =>
    n' = n &&
    (match bc, v with
     | .padding _, .vnone => true
     | .bflag, .vbool _ => true
     | .bbytes k, .vbytes bits => bits.length = k && bits.all (· < 2)
     | _, _ => false) &&
    validBits fs kvs
  | _, _ => false

/-- The total bit width of a `BitStruct`'s fields. -/
def bitSizeOf : List (String × BitCon) → Nat
  | [] => 0
  | (_, .padding k) :: fs => k + bitSizeOf fs
  | (_, .bflag) :: fs => 1 + bitSizeOf fs
  | (_, .bbytes k) :: fs => k + bitSizeOf fs

/-- Chunk a bit list into the bytes it spells, eight bits at a time. -/
def bytesOfBits : List Nat → List Nat
  | b0 :: b1 :: b2 :: b3 :: b4 :: b5 :: b6 :: b7 :: rest =>
    byteOfBits [b0, b1, b2, b3, b4, b5, b6, b7] :: bytesOfBits rest
  | _ => []

/-- Chunk a bit list into groups of four (the `_SpectatorList` elements). -/
def groups4 : List Nat → List (List Nat)
  | b0 :: b1 :: b2 :: b3 :: rest => [b0, b1, b2, b3] :: groups4 rest
  | _ => []

/-- Run a parser exactly `n` times, threading the remainder. -/
def parseTimes (p : List Nat → Option (Value × List Nat)) :
    Nat → List Nat → Option (List Value × List Nat)
  | 0, bs => some ([], bs)
  | n + 1, bs =>
    (p bs).bind fun vr =>
      (parseTimes p n vr.2).map fun t => (vr.1 :: t.1, t.2)

/-- Run a parser until failure (`GreedyRange`), fuelled; an iteration that
consumes nothing stops the loop (no schema of game.py has such elements;
`construct` itself would spin forever on one). -/
def parseRangeGo (p : List Nat → Option (Value × List Nat)) :
    Nat → List Nat → List Value × List Nat
  | 0, bs => ([], bs)
  | fuel + 1, bs =>
    match p bs with
    | none => ([], bs)
    | some (v, r) =>
      if r.length < bs.length then
        let t := parseRangeGo p fuel r
        (v :: t.1, t.2)
      else ([], bs)

/-- Build every element of a list and concatenate the results. -/
def buildListH (b : Value → Option (List Nat)) : List Value → Option (List Nat)
  | [] => some []
  | v :: vs => (b v).bind fun h => (buildListH b vs).map fun t => h ++ t

/-- `construct` parse: read a `Value` off the front of the byte list and
return it with the unread remainder.  `acc` is the container of the struct
fields already parsed (consulted only by `sconsIf`). -/
def parseC : Con → List (String × Value) → List Nat → Option (Value × List Nat)
  | .uint size le, _, bs =>
    (takeN size bs).map fun p =>
      (.vnat (if le then leVal p.1 else beVal p.1), p.2)
  | .int8sb, _, bs =>
    match bs with
    | [] => none
    | b :: rest => some (.vint (if b < 128 then (b : Int) else (b : Int) - 256), rest)
  | .flag, _, bs =>
    match bs with
    | [] => none
    | b :: rest => some (.vbool (b != 0), rest)
  | .bytesN n, _, bs => (takeN n bs).map fun p => (.vbytes p.1, p.2)
  | .arrayN n c, _, bs =>
    (parseTimes (fun bs => parseC c [] bs) n bs).map fun p => (.vlist p.1, p.2)
  | .pascalString, _, bs =>
    match bs with
    | [] => none
    | n :: rest => (takeN n rest).map fun p => (.vbytes p.1, p.2)
  | .cstring, _, bs => (splitCString bs).map fun p => (.vbytes p.1, p.2)
  | .greedyBytes, _, bs => some (.vbytes bs, [])
  | .prefixedArray c, _, bs =>
    match bs with
    | [] => none
    | n :: rest =>
      (parseTimes (fun bs => parseC c [] bs) n rest).map fun p => (.vlist p.1, p.2)
  | .greedyRange c, _, bs =>
    let t := parseRangeGo (fun bs => parseC c [] bs) (bs.length + 1) bs
    some (.vlist t.1, t.2)
  | .optionalC c, _, bs =>
    match parseC c [] bs with
    | some r => some r
    | none => some (.vnone, bs)
  | .snil, _, bs => some (.vstruct [], bs)
  | .scons name c rest, acc, bs =>
    (parseC c [] bs).bind fun vr =>
      (parseC rest (acc ++ [(name, vr.1)]) vr.2).bind fun sr =>
        match sr.1 with
        | .vstruct kvs => some (.vstruct ((name, vr.1) :: kvs), sr.2)
        | _ => none
  | .sconsIf name dep c rest, acc, bs =>
    if truthy (lookupV dep acc) then
      (parseC c [] bs).bind fun vr =>
        (parseC rest (acc ++ [(name, vr.1)]) vr.2).bind fun sr =>
          match sr.1 with
          | .vstruct kvs => some (.vstruct ((name, vr.1) :: kvs), sr.2)
          | _ => none
    else
      (parseC rest (acc ++ [(name, .vnone)]) bs).bind fun sr =>
        match sr.1 with
        | .vstruct kvs => some (.vstruct ((name, .vnone) :: kvs), sr.2)
        | _ => none
  | .deadSwitch, _, bs => some (.vnone, bs)
  | .bitStructC fs, _, bs =>
    match bs with
    | [] => none
    | b :: rest =>
      (parseBits fs (bits8 b)).bind fun p =>
        match p.2 with
        | [] => some (.vstruct p.1, rest)
        | _ => none
  | .spectatorBits, _, bs =>
    (takeN 4 bs).map fun p =>
      (.vlist ((groups4 (p.1.flatMap bits8)).map fun g => .vbytes g.reverse), p.2)

/-- Building side of `_SpectatorList.spectators`: each element must be four
bit-bytes; `BitsSwapped` reverses each group. -/
def extractGroups : List Value → Option (List (List Nat))
  | [] => some []
  | .vbytes g :: vs =>
    if g.length = 4 then (extractGroups vs).map fun t => g.reverse :: t else none
  | _ => none

/-- `construct` build.  `acc` is the container of the struct fields already
built (consulted only by `sconsIf`); struct values are consumed in schema
order, mirroring `Struct._build` reading `obj[name]` field by field. -/
def buildC : Con → List (String × Value) → Value → Option (List Nat)
  | .uint size le, _, .vnat n =>
    if n < 256 ^ size then some (if le then leBytes size n else beBytes size n)
    else none
  | .int8sb, _, .vint i =>
    if -128 ≤ i ∧ i < 128 then some [(i % 256).toNat] else none
  | .flag, _, v =>
    -- `Flag._build` writes `b"\x01" if obj else b"\x00"`: a missing field
    -- (`None`) builds `\x00`.
    match v with
    | .vbool b => some [if b then 1 else 0]
    | .vnone => some [0]
    | _ => none
  | .bytesN n, _, .vbytes s => if s.length = n then some s else none
  | .arrayN n c, _, .vlist vs =>
    if vs.length = n then buildListH (fun v => buildC c [] v) vs else none
  | .pascalString, _, .vbytes s =>
    if s.length ≤ 255 then some (s.length :: s) else none
  | .cstring, _, .vbytes s => some (s ++ [0])
  | .greedyBytes, _, .vbytes s => some s
  | .prefixedArray c, _, .vlist vs =>
    if vs.length ≤ 255 then
      (buildListH (fun v => buildC c [] v) vs).map fun t => vs.length :: t
    else none
  | .greedyRange c, _, .vlist vs => buildListH (fun v => buildC c [] v) vs
  | .optionalC c, _, v =>
    -- `Optional(c) = Select(c, Pass)`: a failing inner build falls back to
    -- `Pass`, which writes nothing.
    match buildC c [] v with
    | some out => some out
    | none => some []
  | .snil, _, .vstruct [] => some []
  | .scons name c rest, acc, .vstruct kvs =>
    match kvs with
    | [] => none
    | (n', v) :: kvs' =>
      if n' = name then
        (buildC c [] v).bind fun h =>
          (buildC rest (acc ++ [(n', v)]) (.vstruct kvs')).map fun t => h ++ t
      else none
  | .sconsIf name dep c rest, acc, .vstruct kvs =>
    match kvs with
    | [] => none
    | (n', v) :: kvs' =>
      if n' = name then
        (if truthy (lookupV dep acc) then buildC c [] v else some []).bind fun h =>
          (buildC rest (acc ++ [(n', v)]) (.vstruct kvs')).map fun t => h ++ t
      else none
  | .deadSwitch, _, _ => some []  -- the default `Pass` ignores the object
  | .bitStructC fs, _, .vstruct kvs =>
    (buildBits fs kvs).bind fun bits =>
      if bits.length = 8 then some [byteOfBits bits] else none
  | .spectatorBits, _, .vlist vs =>
    if vs.length = 8 then
      (extractGroups vs).map fun gs => bytesOfBits gs.flatten
    else none
  | _, _, _ => none

/-- The valid field assignments of a schema: the domain on which `construct`
build succeeds and, every optional field being explicitly present, parse
inverts it.  `acc` as in `buildC`. -/
def validC : Con → List (String × Value) → Value → Bool
  | .uint size _, _, .vnat n => n < 256 ^ size
  | .int8sb, _, .vint i => -128 ≤ i && i < 128
  | .flag, _, .vbool _ => true
  | .bytesN n, _, .vbytes s => s.length = n && s.all (· < 256)
  | .arrayN n c, _, .vlist vs => vs.length = n && vs.all fun v => validC c [] v
  | .pascalString, _, .vbytes s => s.length ≤ 255 && s.all fun b => 0 < b && b < 256
  | .cstring, _, .vbytes s => s.all fun b => 0 < b && b < 256
  | .greedyBytes, _, .vbytes s => s.all (· < 256)
  | .prefixedArray c, _, .vlist vs =>
    vs.length ≤ 255 && vs.all fun v => validC c [] v
  | .greedyRange c, _, .vlist vs => vs.all fun v => validC c [] v
  | .optionalC c, _, v => validC c [] v
  | .snil, _, .vstruct kvs => kvs.isEmpty
  | .scons name c rest, acc, .vstruct kvs =>
    match kvs with
    | [] => false
    | (n', v) :: kvs' =>
      n' = name && validC c [] v && validC rest (acc ++ [(n', v)]) (.vstruct kvs')
  | .sconsIf name dep c rest, acc, .vstruct kvs =>
    match kvs with
    | [] => false
    | (n', v) :: kvs' =>
      n' = name &&
      (if truthy (lookupV dep acc) then validC c [] v
       else match v with | .vnone => true | _ => false) &&
      validC rest (acc ++ [(n', v)]) (.vstruct kvs')
  | .deadSwitch, _, v => match v with | .vnone => true | _ => false
  | .bitStructC fs, _, .vstruct kvs => validBits fs kvs && bitSizeOf fs = 8
  | .spectatorBits, _, .vlist vs =>
    vs.length = 8 && vs.all fun v =>
      match v with
      | .vbytes g => g.length = 4 && g.all (· < 2)
      | _ => false
  | _, _, _ => false

/-! ### Round-trip facts about the primitive codecs -/

theorem leBytes_length (s : Nat) : ∀ n, (leBytes s n).length = s := by
  induction s with
  | zero => intro n; simp [leBytes]
  | succ s ih => intro n; simp [leBytes, ih]

theorem leVal_leBytes (s : Nat) : ∀ n, n < 256 ^ s → leVal (leBytes s n) = n := by
  induction s with
  | zero => intro n h; interval_cases n; simp [leBytes, leVal]
  | succ s ih =>
    intro n h
    have hdiv : n / 256 < 256 ^ s := by
      rw [Nat.div_lt_iff_lt_mul (by norm_num)]
      calc n < 256 ^ (s + 1) := h
        _ = 256 ^ s * 256 := by ring
    simp only [leBytes, leVal, List.foldr_cons]
    have := ih (n / 256) hdiv
    simp only [leVal] at this
    rw [this]
    omega

theorem beVal_beBytes (s n : Nat) (h : n < 256 ^ s) : beVal (beBytes s n) = n := by
  simp only [beVal, beBytes, List.reverse_reverse]
  exact leVal_leBytes s n h

theorem beBytes_length (s n : Nat) : (beBytes s n).length = s := by
  simp [beBytes, leBytes_length]

theorem takeN_append (n : Nat) (bs rest : List Nat) (h : bs.length = n) :
    takeN n (bs ++ rest) = some (bs, rest) := by
  subst h
  simp [takeN, List.take_left, List.drop_left]

theorem splitCString_append (s : List Nat) (hs : ∀ b ∈ s, b ≠ 0) :
    ∀ rest, splitCString (s ++ 0 :: rest) = some (s, rest) := by
  induction s with
  | nil => intro rest; simp [splitCString]
  | cons b s ih =>
    intro rest
    have hb : b ≠ 0 := hs b (by simp)
    simp only [List.cons_append, splitCString, if_neg hb, List.append_eq]
    rw [ih (fun x hx => hs x (by simp [hx]))]
    rfl

theorem bits8_byteOfBits (b0 b1 b2 b3 b4 b5 b6 b7 : Nat)
    (h : b0 < 2 ∧ b1 < 2 ∧ b2 < 2 ∧ b3 < 2 ∧ b4 < 2 ∧ b5 < 2 ∧ b6 < 2 ∧ b7 < 2) :
    bits8 (byteOfBits [b0, b1, b2, b3, b4, b5, b6, b7]) =
      [b0, b1, b2, b3, b4, b5, b6, b7] := by
  simp only [byteOfBits, List.foldl_cons, List.foldl_nil, bits8, List.cons.injEq,
    and_true]
  and_intros <;> omega

theorem byteOfBits_lt (b0 b1 b2 b3 b4 b5 b6 b7 : Nat)
    (h : b0 < 2 ∧ b1 < 2 ∧ b2 < 2 ∧ b3 < 2 ∧ b4 < 2 ∧ b5 < 2 ∧ b6 < 2 ∧ b7 < 2) :
    byteOfBits [b0, b1, b2, b3, b4, b5, b6, b7] < 256 := by
  simp only [byteOfBits, List.foldl_cons, List.foldl_nil]
  omega

theorem buildBits_parseBits (fs : List (String × BitCon)) :
    ∀ kvs bits, validBits fs kvs = true → buildBits fs kvs = some bits →
      (∀ b ∈ bits, b < 2) ∧
      ∀ tail, parseBits fs (bits ++ tail) = some (kvs, tail) := by
  induction fs with
  | nil =>
    intro kvs bits hv hb
    cases kvs with
    | nil =>
      simp only [buildBits, Option.some.injEq] at hb
      subst hb
      exact ⟨by simp, fun tail => by simp [parseBits]⟩
    | cons _ _ => simp [validBits] at hv
  | cons f fs ih =>
    obtain ⟨n, bc⟩ := f
    intro kvs bits hv hb
    cases kvs with
    | nil => simp [validBits] at hv
    | cons kv kvs' =>
      obtain ⟨n', v⟩ := kv
      simp only [validBits, Bool.and_eq_true, decide_eq_true_eq] at hv
      obtain ⟨⟨hn, hmatch⟩, hrest⟩ := hv
      subst hn
      cases bc with
      | padding k =>
        cases v <;> simp at hmatch
        simp only [buildBits, if_pos rfl] at hb
        cases ht : buildBits fs kvs' with
        | none => rw [ht] at hb; simp at hb
        | some t =>
          rw [ht] at hb
          simp only [if_true, Option.map_some', Option.some.injEq] at hb
          subst hb
          obtain ⟨hlt, hparse⟩ := ih kvs' t hrest ht
          refine ⟨?_, ?_⟩
          · intro b hbmem
            rcases List.mem_append.mp hbmem with h | h
            · have := List.eq_of_mem_replicate h; omega
            · exact hlt b h
          · intro tail
            simp only [parseBits, List.append_assoc]
            rw [if_pos (by simp)]
            rw [List.drop_append_of_le_length (by simp), List.drop_replicate]
            simp only [Nat.sub_self, List.drop_zero, List.replicate_zero,
              List.nil_append]
            rw [hparse tail]
            rfl
      | bflag =>
        cases v with
        | vbool b =>
          simp only [buildBits, if_pos rfl] at hb
          cases ht : buildBits fs kvs' with
          | none => rw [ht] at hb; simp at hb
          | some t =>
            rw [ht] at hb
            simp only [if_true, Option.map_some', Option.some.injEq] at hb
            subst hb
            obtain ⟨hlt, hparse⟩ := ih kvs' t hrest ht
            refine ⟨?_, ?_⟩
            · intro x hx
              simp only [List.mem_cons] at hx
              rcases hx with h | h
              · subst h; cases b <;> simp
              · exact hlt x h
            · intro tail
              simp only [List.cons_append, parseBits]
              rw [hparse tail]
              cases b <;> simp
        | vnat _ => simp at hmatch
        | vint _ => simp at hmatch
        | vbytes _ => simp at hmatch
        | vlist _ => simp at hmatch
        | vstruct _ => simp at hmatch
        | vnone => simp at hmatch
      | bbytes k =>
        cases v with
        | vbytes g =>
          simp only [Bool.and_eq_true, decide_eq_true_eq, List.all_eq_true,
            decide_eq_true_eq] at hmatch
          obtain ⟨hg, hgbits⟩ := hmatch
          simp only [buildBits, if_pos rfl, hg, if_pos rfl] at hb
          cases ht : buildBits fs kvs' with
          | none => rw [ht] at hb; simp at hb
          | some t =>
            rw [ht] at hb
            simp only [if_true, Option.map_some', Option.some.injEq] at hb
            subst hb
            obtain ⟨hlt, hparse⟩ := ih kvs' t hrest ht
            refine ⟨?_, ?_⟩
            · intro x hx
              rcases List.mem_append.mp hx with h | h
              · exact hgbits x h
              · exact hlt x h
            · intro tail
              simp only [parseBits, List.append_assoc]
              rw [if_pos (by simp [hg])]
              rw [List.take_append_of_le_length (by omega),
                List.drop_append_of_le_length (by omega)]
              rw [List.take_of_length_le (by omega), List.drop_of_length_le (by omega)]
              simp only [List.nil_append]
              rw [hparse tail]
              rfl
        | vnat _ => simp at hmatch
        | vint _ => simp at hmatch
        | vbool _ => simp at hmatch
        | vlist _ => simp at hmatch
        | vstruct _ => simp at hmatch
        | vnone => simp at hmatch

theorem bytesOfBits_append (a rest : List Nat) (h : a.length = 8) :
    bytesOfBits (a ++ rest) = byteOfBits a :: bytesOfBits rest := by
  rcases a with _|⟨b0,_|⟨b1,_|⟨b2,_|⟨b3,_|⟨b4,_|⟨b5,_|⟨b6,_|⟨b7,_|⟨b8,a⟩⟩⟩⟩⟩⟩⟩⟩⟩ <;>
    simp_all [bytesOfBits, byteOfBits]

theorem groups4_append (a rest : List Nat) (h : a.length = 4) :
    groups4 (a ++ rest) = a :: groups4 rest := by
  rcases a with _|⟨b0,_|⟨b1,_|⟨b2,_|⟨b3,_|⟨b4,a⟩⟩⟩⟩⟩ <;> simp_all [groups4]

theorem bits8_byteOfBits_list (a : List Nat) (h : a.length = 8)
    (hb : ∀ b ∈ a, b < 2) : bits8 (byteOfBits a) = a := by
  rcases a with _|⟨b0,_|⟨b1,_|⟨b2,_|⟨b3,_|⟨b4,_|⟨b5,_|⟨b6,_|⟨b7,_|⟨b8,a⟩⟩⟩⟩⟩⟩⟩⟩⟩ <;>
    simp_all
  exact bits8_byteOfBits b0 b1 b2 b3 b4 b5 b6 b7 (by simp_all)

/-- Round trip of the `_SpectatorList` bit matrix, two 4-bit groups (one
byte) at a time. -/
theorem spectator_roundtrip_aux (k : Nat) :
    ∀ (vs : List Value) (gs : List (List Nat)),
      vs.length ≤ k →
      vs.length % 2 = 0 →
      (∀ v ∈ vs, ∃ g, v = Value.vbytes g ∧ g.length = 4 ∧ ∀ b ∈ g, b < 2) →
      extractGroups vs = some gs →
      (bytesOfBits gs.flatten).length = vs.length / 2 ∧
      (groups4 ((bytesOfBits gs.flatten).flatMap bits8)).map
        (fun g => Value.vbytes g.reverse) = vs := by
  induction k with
  | zero =>
    intro vs gs hk _ _ hmap
    have : vs = [] := List.eq_nil_of_length_eq_zero (Nat.le_zero.mp hk)
    subst this
    simp only [extractGroups, Option.some.injEq] at hmap
    subst hmap
    simp [bytesOfBits, groups4]
  | succ k ih =>
    intro vs gs hk hmod hval hmap
    match vs with
    | [] =>
      simp only [extractGroups, Option.some.injEq] at hmap
      subst hmap
      simp [bytesOfBits, groups4]
    | [x] => simp at hmod
    | x :: y :: vs' =>
      obtain ⟨gx, hx, hgx4, hgxb⟩ := hval x (by simp)
      obtain ⟨gy, hy, hgy4, hgyb⟩ := hval y (by simp)
      subst hx hy
      simp only [extractGroups, if_pos hgx4, if_pos hgy4] at hmap
      cases ht : extractGroups vs' with
      | none => rw [ht] at hmap; simp at hmap
      | some gs' =>
        rw [ht] at hmap
        simp only [Option.map_some', Option.some.injEq] at hmap
        subst hmap
        have hk' : vs'.length ≤ k := by
          simp only [List.length_cons] at hk; omega
        have hmod' : vs'.length % 2 = 0 := by
          simp only [List.length_cons] at hmod ⊢; omega
        have hk'' : vs'.length ≤ k := hk'
        obtain ⟨hlen', hmap'⟩ :=
          ih vs' gs' hk' hmod' (fun v hv => hval v (by simp [hv])) ht
        have hcat : (gx.reverse :: gy.reverse :: gs').flatten =
            (gx.reverse ++ gy.reverse) ++ gs'.flatten := by
          simp
        rw [hcat, bytesOfBits_append _ _ (by simp [hgx4, hgy4])]
        constructor
        · simp only [List.length_cons, hlen']
          simp only [List.length_cons] at hmod ⊢
          omega
        · simp only [List.flatMap_cons]
          rw [bits8_byteOfBits_list _ (by simp [hgx4, hgy4])
            (by intro b hb; rcases List.mem_append.mp hb with h | h
                · exact hgxb b (List.mem_reverse.mp h)
                · exact hgyb b (List.mem_reverse.mp h))]
          rw [List.append_assoc, groups4_append _ _ (by simp [hgx4]),
            groups4_append _ _ (by simp [hgy4])]
          simp only [List.map_cons, List.reverse_reverse]
          rw [hmap']

theorem buildListH_isSome (b : Value → Option (List Nat)) :
    ∀ vs : List Value, (∀ v ∈ vs, (b v).isSome) → (buildListH b vs).isSome := by
  intro vs
  induction vs with
  | nil => intro _; simp [buildListH]
  | cons v vs ih =>
    intro h
    simp only [buildListH]
    cases hv : b v with
    | none => have := h v (by simp); rw [hv] at this; simp at this
    | some hd =>
      cases ht : buildListH b vs with
      | none => have := ih (fun x hx => h x (by simp [hx])); rw [ht] at this; simp at this
      | some tl => simp

/-- A sound element round trip lifts to `parseTimes` over built lists. -/
theorem parseTimes_roundtrip (p : List Nat → Option (Value × List Nat))
    (b : Value → Option (List Nat)) (P : Value → Prop)
    (H : ∀ v bs, P v → b v = some bs → ∀ rest, p (bs ++ rest) = some (v, rest)) :
    ∀ (vs : List Value) (out : List Nat), (∀ v ∈ vs, P v) →
      buildListH b vs = some out →
      ∀ rest, parseTimes p vs.length (out ++ rest) = some (vs, rest) := by
  intro vs
  induction vs with
  | nil =>
    intro out _ hout rest
    simp only [buildListH, Option.some.injEq] at hout
    subst hout
    simp [parseTimes]
  | cons v vs ih =>
    intro out hP hout rest
    simp only [buildListH] at hout
    cases hv : b v with
    | none => rw [hv] at hout; simp at hout
    | some hd =>
      rw [hv] at hout
      cases ht : buildListH b vs with
      | none => rw [ht] at hout; simp at hout
      | some tl =>
        rw [ht] at hout
        simp only [Option.some_bind, Option.bind_some, Option.map_some', Option.some.injEq] at hout
        subst hout
        simp only [List.length_cons, parseTimes, List.append_assoc]
        rw [H v hd (hP v (by simp)) hv (tl ++ rest)]
        simp only [Option.some_bind]
        rw [ih tl (fun x hx => hP x (by simp [hx])) ht rest]
        rfl

/-- One successful step of `parseRangeGo`, unfolded. -/
theorem parseRangeGo_cons (p : List Nat → Option (Value × List Nat)) (fuel : Nat)
    (bs : List Nat) (v : Value) (r : List Nat) (h : p bs = some (v, r)) :
    parseRangeGo p (fuel + 1) bs =
      if r.length < bs.length then
        (v :: (parseRangeGo p fuel r).1, (parseRangeGo p fuel r).2)
      else ([], bs) := by
  conv_lhs => rw [parseRangeGo]
  rw [h]

/-- A sound element round trip lifts to `parseRangeGo` over built lists, when
an element cannot parse from the empty input. -/
theorem parseRange_roundtrip (p : List Nat → Option (Value × List Nat))
    (b : Value → Option (List Nat)) (P : Value → Prop)
    (H : ∀ v bs, P v → b v = some bs → ∀ rest, p (bs ++ rest) = some (v, rest))
    (Hempty : p [] = none) :
    ∀ (vs : List Value) (out : List Nat) (fuel : Nat), (∀ v ∈ vs, P v) →
      buildListH b vs = some out → out.length < fuel →
      parseRangeGo p fuel out = (vs, []) := by
  intro vs
  induction vs with
  | nil =>
    intro out fuel _ hout hfuel
    simp only [buildListH, Option.some.injEq] at hout
    subst hout
    cases fuel with
    | zero => omega
    | succ fuel => simp [parseRangeGo, Hempty]
  | cons v vs ih =>
    intro out fuel hP hout hfuel
    simp only [buildListH] at hout
    cases hv : b v with
    | none => rw [hv] at hout; simp at hout
    | some hd =>
      rw [hv] at hout
      cases ht : buildListH b vs with
      | none => rw [ht] at hout; simp at hout
      | some tl =>
        rw [ht] at hout
        simp only [Option.some_bind, Option.bind_some, Option.map_some', Option.some.injEq] at hout
        subst hout
        have hhd : hd ≠ [] := by
          intro hnil
          have := H v hd (hP v (by simp)) hv []
          rw [hnil] at this
          simp only [List.nil_append, List.append_nil] at this
          rw [Hempty] at this
          exact Option.noConfusion this
        cases fuel with
        | zero => omega
        | succ fuel =>
          have hlt : tl.length < (hd ++ tl).length := by
            simp only [List.length_append]
            cases hd with
            | nil => exact absurd rfl hhd
            | cons _ _ => simp
          have hstep : parseRangeGo p fuel tl = (vs, []) := by
            apply ih tl fuel (fun x hx => hP x (by simp [hx])) ht
            simp only [List.length_append] at hfuel
            have := List.length_pos.mpr hhd
            omega
          rw [parseRangeGo_cons p fuel (hd ++ tl) v tl
            (H v hd (hP v (by simp)) hv tl)]
          rw [if_pos hlt, hstep]

/-! ### Well-formedness of schemas

`nongreedy c`: parsing stops at the field's own bytes, so the field may be
followed by further fields.  `tailsafe c`: parsing the field's exact bytes
consumes them all, so the field may end a frame (greedy fields are only ever
last in game.py's schemas).  `failsEmpty c`: the field cannot parse from an
empty input (used to stop `GreedyRange`). -/

def nongreedy : Con → Bool
  | .uint _ _ => true
  | .int8sb => true
  | .flag => true
  | .bytesN _ => true
  | .arrayN _ c => nongreedy c
  | .pascalString => true
  | .cstring => true
  | .greedyBytes => false
  | .prefixedArray c => nongreedy c
  | .greedyRange _ => false
  | .optionalC c => nongreedy c
  | .snil => true
  | .scons _ c rest => nongreedy c && nongreedy rest
  | .sconsIf _ _ c rest => nongreedy c && nongreedy rest
  | .deadSwitch => true
  | .bitStructC _ => true
  | .spectatorBits => true

def failsEmpty : Con → Bool
  | .uint s _ => decide (0 < s)
  | .int8sb => true
  | .flag => true
  | .bytesN n => decide (0 < n)
  | .arrayN n c => decide (0 < n) && failsEmpty c
  | .pascalString => true
  | .cstring => true
  | .prefixedArray _ => true
  | .scons _ c _ => failsEmpty c
  | .bitStructC _ => true
  | .spectatorBits => true
  | _ => false

def isSnil : Con → Bool
  | .snil => true
  | _ => false

def tailsafe : Con → Bool
  | .greedyBytes => true
  | .greedyRange c => nongreedy c && failsEmpty c
  | .optionalC c => tailsafe c
  | .scons _ c rest => (nongreedy c && tailsafe rest) || (tailsafe c && isSnil rest)
  | .sconsIf _ _ c rest => nongreedy c && tailsafe rest
  | c => nongreedy c

theorem failsEmpty_parse (c : Con) :
    failsEmpty c = true → ∀ acc, parseC c acc [] = none := by
  induction c with
  | uint s le =>
    intro h acc
    simp only [failsEmpty, decide_eq_true_eq] at h
    simp only [parseC, takeN]
    rw [if_neg (by simp; omega)]
    rfl
  | int8sb => intro _ _; rfl
  | flag => intro _ _; rfl
  | bytesN n =>
    intro h acc
    simp only [failsEmpty, decide_eq_true_eq] at h
    simp only [parseC, takeN]
    rw [if_neg (by simp; omega)]
    rfl
  | arrayN n c ih =>
    intro h acc
    simp only [failsEmpty, Bool.and_eq_true, decide_eq_true_eq] at h
    obtain ⟨hn, hc⟩ := h
    cases n with
    | zero => omega
    | succ n =>
      simp only [parseC, parseTimes]
      rw [ih hc []]
      rfl
  | pascalString => intro _ _; rfl
  | cstring => intro _ _; rfl
  | greedyBytes => intro h; simp [failsEmpty] at h
  | prefixedArray c _ => intro _ _; rfl
  | greedyRange c _ => intro h; simp [failsEmpty] at h
  | optionalC c _ => intro h; simp [failsEmpty] at h
  | snil => intro h; simp [failsEmpty] at h
  | scons name c rest ihc _ =>
    intro h acc
    simp only [failsEmpty] at h
    simp only [parseC]
    rw [ihc h []]
    rfl
  | sconsIf name dep c rest _ _ => intro h; simp [failsEmpty] at h
  | deadSwitch => intro h; simp [failsEmpty] at h
  | bitStructC fs => intro _ _; rfl
  | spectatorBits => intro _ _; rfl

theorem extractGroups_isSome (vs : List Value)
    (h : ∀ v ∈ vs, ∃ g, v = Value.vbytes g ∧ g.length = 4) :
    (extractGroups vs).isSome := by
  induction vs with
  | nil => simp [extractGroups]
  | cons v vs ih =>
    obtain ⟨g, hg, hg4⟩ := h v (by simp)
    subst hg
    simp only [extractGroups, if_pos hg4]
    cases ht : extractGroups vs with
    | none =>
      have := ih (fun x hx => h x (by simp [hx]))
      rw [ht] at this
      simp at this
    | some _ => simp

theorem validBits_buildBits_isSome (fs : List (String × BitCon)) :
    ∀ kvs, validBits fs kvs = true → (buildBits fs kvs).isSome := by
  induction fs with
  | nil =>
    intro kvs h
    cases kvs with
    | nil => simp [buildBits]
    | cons _ _ => simp [validBits] at h
  | cons f fs ih =>
    obtain ⟨n, bc⟩ := f
    intro kvs h
    cases kvs with
    | nil => simp [validBits] at h
    | cons kv kvs' =>
      obtain ⟨n', v⟩ := kv
      simp only [validBits, Bool.and_eq_true, decide_eq_true_eq] at h
      obtain ⟨⟨hn, hmatch⟩, hrest⟩ := h
      subst hn
      have := ih kvs' hrest
      cases ht : buildBits fs kvs' with
      | none => rw [ht] at this; simp at this
      | some t =>
        cases bc with
        | padding k => cases v <;> simp_all [buildBits]
        | bflag => cases v <;> simp_all [buildBits]
        | bbytes k =>
          cases v with
          | vbytes g =>
            simp only [Bool.and_eq_true, decide_eq_true_eq, List.all_eq_true,
              decide_eq_true_eq] at hmatch
            simp [buildBits, hmatch.1, ht]
          | vnat _ => simp at hmatch
          | vint _ => simp at hmatch
          | vbool _ => simp at hmatch
          | vlist _ => simp at hmatch
          | vstruct _ => simp at hmatch
          | vnone => simp at hmatch

theorem buildBits_length (fs : List (String × BitCon)) :
    ∀ kvs bits, validBits fs kvs = true → buildBits fs kvs = some bits →
      bits.length = bitSizeOf fs := by
  induction fs with
  | nil =>
    intro kvs bits hv hb
    cases kvs with
    | nil =>
      simp only [buildBits, Option.some.injEq] at hb
      subst hb
      simp [bitSizeOf]
    | cons _ _ => simp [validBits] at hv
  | cons f fs ih =>
    obtain ⟨n, bc⟩ := f
    intro kvs bits hv hb
    cases kvs with
    | nil => simp [validBits] at hv
    | cons kv kvs' =>
      obtain ⟨n', v⟩ := kv
      simp only [validBits, Bool.and_eq_true, decide_eq_true_eq] at hv
      obtain ⟨⟨hn, hmatch⟩, hrest⟩ := hv
      subst hn
      cases ht : buildBits fs kvs' with
      | none =>
        have := validBits_buildBits_isSome fs kvs' hrest
        rw [ht] at this
        simp at this
      | some t =>
        have hlen := ih kvs' t hrest ht
        cases bc with
        | padding k =>
          cases v <;> simp_all [buildBits, bitSizeOf]
          rw [← hb]
          simp [hlen]
        | bflag =>
          cases v <;> simp_all [buildBits, bitSizeOf]
          rw [← hb]
          simp [hlen]
          omega
        | bbytes k =>
          cases v with
          | vbytes g =>
            simp only [Bool.and_eq_true, decide_eq_true_eq, List.all_eq_true,
              decide_eq_true_eq] at hmatch
            simp only [buildBits, if_pos rfl, if_pos hmatch.1, ht, if_true,
              Option.map_some', Option.some.injEq] at hb
            rw [← hb]
            simp [bitSizeOf, hmatch.1, hlen]
          | vnat _ => simp at hmatch
          | vint _ => simp at hmatch
          | vbool _ => simp at hmatch
          | vlist _ => simp at hmatch
          | vstruct _ => simp at hmatch
          | vnone => simp at hmatch

set_option maxHeartbeats 2000000 in
/-- On its valid domain, `construct` build succeeds. -/
theorem validC_buildC_isSome (c : Con) :
    ∀ acc v, validC c acc v = true → (buildC c acc v).isSome := by
  induction c with
  | uint size le =>
    intro acc v hv
    cases v <;> simp_all [validC, buildC]
  | int8sb =>
    intro acc v hv
    cases v <;> simp_all [validC, buildC]
  | flag =>
    intro acc v hv
    cases v <;> simp_all [validC, buildC]
  | bytesN n =>
    intro acc v hv
    cases v <;> simp_all [validC, buildC]
  | arrayN n c ih =>
    intro acc v hv
    cases v <;> simp_all [validC, buildC]
    exact buildListH_isSome _ _ fun x hx => ih [] x (hv.2 x hx)
  | pascalString =>
    intro acc v hv
    cases v <;> simp_all [validC, buildC]
  | cstring =>
    intro acc v hv
    cases v <;> simp_all [validC, buildC]
  | greedyBytes =>
    intro acc v hv
    cases v <;> simp_all [validC, buildC]
  | prefixedArray c ih =>
    intro acc v hv
    cases v <;> simp_all [validC, buildC]
    have := buildListH_isSome (fun v => buildC c [] v) _
      fun x hx => ih [] x (hv.2 x hx)
    cases h : buildListH (fun v => buildC c [] v) _ with
    | none => rw [h] at this; simp at this
    | some _ => simp
  | greedyRange c ih =>
    intro acc v hv
    cases v <;> simp_all [validC, buildC]
    exact buildListH_isSome _ _ fun x hx => ih [] x (hv x hx)
  | optionalC c ih =>
    intro acc v hv
    cases h : buildC c [] v <;> simp [buildC, h]
  | snil =>
    intro acc v hv
    cases v <;> simp_all [validC, buildC]
  | scons name c rest ihc ihrest =>
    intro acc v hv
    cases v with
    | vstruct kvs =>
      cases kvs with
      | nil => simp [validC] at hv
      | cons kv kvs' =>
        obtain ⟨n', v'⟩ := kv
        simp only [validC, Bool.and_eq_true, decide_eq_true_eq] at hv
        obtain ⟨⟨hn, hv'⟩, hrest⟩ := hv
        simp only [buildC, if_pos hn]
        have h1 := ihc [] v' hv'
        have h2 := ihrest (acc ++ [(n', v')]) (.vstruct kvs') hrest
        cases hb1 : buildC c [] v' with
        | none => rw [hb1] at h1; simp at h1
        | some h =>
          cases hb2 : buildC rest (acc ++ [(n', v')]) (.vstruct kvs') with
          | none => rw [hb2] at h2; simp at h2
          | some t => simp [hb1, hb2]
    | vnat _ => simp [validC] at hv
    | vint _ => simp [validC] at hv
    | vbool _ => simp [validC] at hv
    | vbytes _ => simp [validC] at hv
    | vlist _ => simp [validC] at hv
    | vnone => simp [validC] at hv
  | sconsIf name dep c rest ihc ihrest =>
    intro acc v hv
    cases v with
    | vstruct kvs =>
      cases kvs with
      | nil => simp [validC] at hv
      | cons kv kvs' =>
        obtain ⟨n', v'⟩ := kv
        simp only [validC, Bool.and_eq_true, decide_eq_true_eq] at hv
        obtain ⟨⟨hn, hv'⟩, hrest⟩ := hv
        simp only [buildC, if_pos hn]
        have h2 := ihrest (acc ++ [(n', v')]) (.vstruct kvs') hrest
        cases hcond : truthy (lookupV dep acc) with
        | true =>
          rw [hcond] at hv'
          simp only [if_pos rfl] at hv' ⊢
          have h1 := ihc [] v' hv'
          cases hb1 : buildC c [] v' with
          | none => rw [hb1] at h1; simp at h1
          | some h =>
            cases hb2 : buildC rest (acc ++ [(n', v')]) (.vstruct kvs') with
            | none => rw [hb2] at h2; simp at h2
            | some t => simp [hb1, hb2]
        | false =>
          simp only [hcond, Bool.false_eq_true, if_false] at hv' ⊢
          cases hb2 : buildC rest (acc ++ [(n', v')]) (.vstruct kvs') with
          | none => rw [hb2] at h2; simp at h2
          | some t => simp [hb2]
    | vnat _ => simp [validC] at hv
    | vint _ => simp [validC] at hv
    | vbool _ => simp [validC] at hv
    | vbytes _ => simp [validC] at hv
    | vlist _ => simp [validC] at hv
    | vnone => simp [validC] at hv
  | deadSwitch =>
    intro acc v hv
    simp [buildC]
  | bitStructC fs =>
    intro acc v hv
    cases v with
    | vstruct kvs =>
      simp only [validC, Bool.and_eq_true, decide_eq_true_eq] at hv
      obtain ⟨hvb, hsize⟩ := hv
      simp only [buildC]
      have h0 := validBits_buildBits_isSome fs kvs hvb
      cases hb : buildBits fs kvs with
      | none => rw [hb] at h0; simp at h0
      | some bits =>
        have hlen := buildBits_length fs kvs bits hvb hb
        simp [hb, hlen, hsize]
    | vnat _ => simp [validC] at hv
    | vint _ => simp [validC] at hv
    | vbool _ => simp [validC] at hv
    | vbytes _ => simp [validC] at hv
    | vlist _ => simp [validC] at hv
    | vnone => simp [validC] at hv
  | spectatorBits =>
    intro acc v hv
    cases v with
    | vlist vs =>
      simp only [validC, Bool.and_eq_true, decide_eq_true_eq,
        List.all_eq_true] at hv
      have hgs : ∀ x ∈ vs, ∃ g, x = Value.vbytes g ∧ g.length = 4 := by
        intro x hx
        have h := hv.2 x hx
        cases x with
        | vbytes g =>
          simp only [Bool.and_eq_true, decide_eq_true_eq] at h
          exact ⟨g, rfl, h.1⟩
        | vnat _ => simp at h
        | vint _ => simp at h
        | vbool _ => simp at h
        | vlist _ => simp at h
        | vstruct _ => simp at h
        | vnone => simp at h
      have h0 := extractGroups_isSome vs hgs
      simp only [buildC, if_pos hv.1]
      cases h : extractGroups vs with
      | none => rw [h] at h0; simp at h0
      | some _ => simp
    | vnat _ => simp [validC] at hv
    | vint _ => simp [validC] at hv
    | vbool _ => simp [validC] at hv
    | vbytes _ => simp [validC] at hv
    | vstruct _ => simp [validC] at hv
    | vnone => simp [validC] at hv

set_option maxHeartbeats 2000000 in
/-- Core round trip, suffix form: a non-greedy field parses its built bytes
off the front of any input and returns exactly the built value. -/
theorem parse_build_suffix (c : Con) :
    ∀ acc v out, nongreedy c = true → validC c acc v = true →
      buildC c acc v = some out →
      ∀ rest, parseC c acc (out ++ rest) = some (v, rest) := by
  induction c with
  | uint size le =>
    intro acc v out _ hv hout rest
    cases v with
    | vnat n =>
      simp only [validC, decide_eq_true_eq] at hv
      cases le with
      | true =>
        simp only [buildC, if_pos hv, if_true, Option.some.injEq] at hout
        subst hout
        simp only [parseC]
        rw [takeN_append size _ rest (leBytes_length size n)]
        simp [leVal_leBytes size n hv]
      | false =>
        simp only [buildC, if_pos hv, Bool.false_eq_true, if_false,
          Option.some.injEq] at hout
        subst hout
        simp only [parseC]
        rw [takeN_append size _ rest (beBytes_length size n)]
        simp [beVal_beBytes size n hv]
    | vint _ => simp [validC] at hv
    | vbool _ => simp [validC] at hv
    | vbytes _ => simp [validC] at hv
    | vlist _ => simp [validC] at hv
    | vstruct _ => simp [validC] at hv
    | vnone => simp [validC] at hv
  | int8sb =>
    intro acc v out _ hv hout rest
    cases v with
    | vint i =>
      simp only [validC, Bool.and_eq_true, decide_eq_true_eq] at hv
      simp only [buildC, if_pos (And.intro hv.1 hv.2), Option.some.injEq] at hout
      subst hout
      simp only [List.cons_append, parseC, Option.some.injEq, Prod.mk.injEq,
        Value.vint.injEq]
      have hnn : (0 : Int) ≤ i % 256 := Int.emod_nonneg i (by norm_num)
      have hcast : (((i % 256).toNat : Nat) : Int) = i % 256 :=
        Int.toNat_of_nonneg hnn
      constructor
      · split_ifs with h
        · omega
        · omega
      · rfl
    | vnat _ => simp [validC] at hv
    | vbool _ => simp [validC] at hv
    | vbytes _ => simp [validC] at hv
    | vlist _ => simp [validC] at hv
    | vstruct _ => simp [validC] at hv
    | vnone => simp [validC] at hv
  | flag =>
    intro acc v out _ hv hout rest
    cases v with
    | vbool b =>
      simp only [buildC, Option.some.injEq] at hout
      subst hout
      cases b <;> simp [parseC]
    | vnat _ => simp [validC] at hv
    | vint _ => simp [validC] at hv
    | vbytes _ => simp [validC] at hv
    | vlist _ => simp [validC] at hv
    | vstruct _ => simp [validC] at hv
    | vnone => simp [validC] at hv
  | bytesN n =>
    intro acc v out _ hv hout rest
    cases v with
    | vbytes s =>
      simp only [validC, Bool.and_eq_true, decide_eq_true_eq] at hv
      simp only [buildC, if_pos hv.1, Option.some.injEq] at hout
      subst hout
      simp only [parseC]
      rw [takeN_append n _ rest hv.1]
      rfl
    | vnat _ => simp [validC] at hv
    | vint _ => simp [validC] at hv
    | vbool _ => simp [validC] at hv
    | vlist _ => simp [validC] at hv
    | vstruct _ => simp [validC] at hv
    | vnone => simp [validC] at hv
  | arrayN n c ih =>
    intro acc v out hng hv hout rest
    simp only [nongreedy] at hng
    cases v with
    | vlist vs =>
      simp only [validC, Bool.and_eq_true, decide_eq_true_eq,
        List.all_eq_true] at hv
      simp only [buildC, if_pos hv.1] at hout
      have hpt := parseTimes_roundtrip (fun bs => parseC c [] bs)
        (fun v => buildC c [] v) (fun v => validC c [] v = true)
        (fun v bs hP hb r => ih [] v bs hng hP hb r)
        vs out (fun x hx => hv.2 x hx) hout rest
      simp only [parseC, ← hv.1]
      rw [hpt]
      rfl
    | vnat _ => simp [validC] at hv
    | vint _ => simp [validC] at hv
    | vbool _ => simp [validC] at hv
    | vbytes _ => simp [validC] at hv
    | vstruct _ => simp [validC] at hv
    | vnone => simp [validC] at hv
  | pascalString =>
    intro acc v out _ hv hout rest
    cases v with
    | vbytes s =>
      simp only [validC, Bool.and_eq_true, decide_eq_true_eq] at hv
      simp only [buildC, if_pos hv.1, Option.some.injEq] at hout
      subst hout
      simp only [List.cons_append, parseC]
      rw [takeN_append s.length s rest rfl]
      rfl
    | vnat _ => simp [validC] at hv
    | vint _ => simp [validC] at hv
    | vbool _ => simp [validC] at hv
    | vlist _ => simp [validC] at hv
    | vstruct _ => simp [validC] at hv
    | vnone => simp [validC] at hv
  | cstring =>
    intro acc v out _ hv hout rest
    cases v with
    | vbytes s =>
      simp only [validC, List.all_eq_true, Bool.and_eq_true,
        decide_eq_true_eq] at hv
      simp only [buildC, Option.some.injEq] at hout
      subst hout
      simp only [parseC, List.append_assoc, List.cons_append, List.nil_append]
      rw [splitCString_append s (fun b hb => by have := hv b hb; omega) rest]
      rfl
    | vnat _ => simp [validC] at hv
    | vint _ => simp [validC] at hv
    | vbool _ => simp [validC] at hv
    | vlist _ => simp [validC] at hv
    | vstruct _ => simp [validC] at hv
    | vnone => simp [validC] at hv
  | greedyBytes =>
    intro acc v out hng _ _ _
    simp [nongreedy] at hng
  | prefixedArray c ih =>
    intro acc v out hng hv hout rest
    simp only [nongreedy] at hng
    cases v with
    | vlist vs =>
      simp only [validC, Bool.and_eq_true, decide_eq_true_eq,
        List.all_eq_true] at hv
      simp only [buildC, if_pos hv.1] at hout
      cases hbl : buildListH (fun v => buildC c [] v) vs with
      | none => rw [hbl] at hout; simp at hout
      | some t =>
        rw [hbl] at hout
        simp only [Option.map_some', Option.some.injEq] at hout
        subst hout
        have hpt := parseTimes_roundtrip (fun bs => parseC c [] bs)
          (fun v => buildC c [] v) (fun v => validC c [] v = true)
          (fun v bs hP hb r => ih [] v bs hng hP hb r)
          vs t (fun x hx => hv.2 x hx) hbl rest
        simp only [List.cons_append, parseC]
        rw [hpt]
        rfl
    | vnat _ => simp [validC] at hv
    | vint _ => simp [validC] at hv
    | vbool _ => simp [validC] at hv
    | vbytes _ => simp [validC] at hv
    | vstruct _ => simp [validC] at hv
    | vnone => simp [validC] at hv
  | greedyRange c _ =>
    intro acc v out hng _ _ _
    simp [nongreedy] at hng
  | optionalC c ih =>
    intro acc v out hng hv hout rest
    simp only [nongreedy] at hng
    simp only [validC] at hv
    simp only [buildC] at hout
    cases hb : buildC c [] v with
    | none =>
      have := validC_buildC_isSome c [] v hv
      rw [hb] at this
      simp at this
    | some o =>
      rw [hb] at hout
      simp only [Option.some.injEq] at hout
      subst hout
      simp only [parseC]
      rw [ih [] v o hng hv hb rest]
  | snil =>
    intro acc v out _ hv hout rest
    cases v with
    | vstruct kvs =>
      cases kvs with
      | nil =>
        simp only [buildC, Option.some.injEq] at hout
        subst hout
        simp [parseC]
      | cons _ _ => simp [validC] at hv
    | vnat _ => simp [validC] at hv
    | vint _ => simp [validC] at hv
    | vbool _ => simp [validC] at hv
    | vbytes _ => simp [validC] at hv
    | vlist _ => simp [validC] at hv
    | vnone => simp [validC] at hv
  | scons name c rest' ihc ihrest =>
    intro acc v out hng hv hout rest
    simp only [nongreedy, Bool.and_eq_true] at hng
    cases v with
    | vstruct kvs =>
      cases kvs with
      | nil => simp [validC] at hv
      | cons kv kvs' =>
        obtain ⟨n', v'⟩ := kv
        simp only [validC, Bool.and_eq_true, decide_eq_true_eq] at hv
        obtain ⟨⟨hn, hv'⟩, hrest⟩ := hv
        subst hn
        simp only [buildC, if_pos rfl] at hout
        cases hb1 : buildC c [] v' with
        | none => rw [hb1] at hout; simp at hout
        | some h =>
          rw [hb1] at hout
          cases hb2 : buildC rest' (acc ++ [(n', v')]) (.vstruct kvs') with
          | none => rw [hb2] at hout; simp at hout
          | some t =>
            rw [hb2] at hout
            simp only [if_true, Option.some_bind, Option.map_some',
              Option.some.injEq] at hout
            subst hout
            simp only [parseC, List.append_assoc]
            rw [ihc [] v' h hng.1 hv' hb1 (t ++ rest)]
            simp only [Option.some_bind]
            rw [ihrest (acc ++ [(n', v')]) (.vstruct kvs') t hng.2 hrest hb2 rest]
            rfl
    | vnat _ => simp [validC] at hv
    | vint _ => simp [validC] at hv
    | vbool _ => simp [validC] at hv
    | vbytes _ => simp [validC] at hv
    | vlist _ => simp [validC] at hv
    | vnone => simp [validC] at hv
  | sconsIf name dep c rest' ihc ihrest =>
    intro acc v out hng hv hout rest
    simp only [nongreedy, Bool.and_eq_true] at hng
    cases v with
    | vstruct kvs =>
      cases kvs with
      | nil => simp [validC] at hv
      | cons kv kvs' =>
        obtain ⟨n', v'⟩ := kv
        simp only [validC, Bool.and_eq_true, decide_eq_true_eq] at hv
        obtain ⟨⟨hn, hv'⟩, hrest⟩ := hv
        subst hn
        simp only [buildC, if_pos rfl] at hout
        cases hcond : truthy (lookupV dep acc) with
        | true =>
          rw [hcond] at hv' hout
          simp only [if_true] at hv' hout
          cases hb1 : buildC c [] v' with
          | none => rw [hb1] at hout; simp at hout
          | some h =>
            rw [hb1] at hout
            cases hb2 : buildC rest' (acc ++ [(n', v')]) (.vstruct kvs') with
            | none => rw [hb2] at hout; simp at hout
            | some t =>
              rw [hb2] at hout
              simp only [if_true, Option.some_bind, Option.map_some',
                Option.some.injEq] at hout
              subst hout
              simp only [parseC, hcond, if_pos rfl, List.append_assoc]
              rw [ihc [] v' h hng.1 hv' hb1 (t ++ rest)]
              simp only [Option.some_bind]
              rw [ihrest (acc ++ [(n', v')]) (.vstruct kvs') t hng.2 hrest
                hb2 rest]
              rfl
        | false =>
          rw [hcond] at hv' hout
          simp only [Bool.false_eq_true, if_false] at hv' hout
          cases v' with
          | vnone =>
            cases hb2 : buildC rest' (acc ++ [(n', .vnone)]) (.vstruct kvs') with
            | none => rw [hb2] at hout; simp at hout
            | some t =>
              rw [hb2] at hout
              simp only [if_true, Option.some_bind, Option.map_some',
                Option.some.injEq] at hout
              subst hout
              simp only [parseC, hcond, Bool.false_eq_true, if_false,
                List.nil_append]
              rw [ihrest (acc ++ [(n', Value.vnone)]) (Value.vstruct kvs') t
                hng.2 hrest hb2 rest]
              rfl
          | vnat _ => simp at hv'
          | vint _ => simp at hv'
          | vbool _ => simp at hv'
          | vbytes _ => simp at hv'
          | vlist _ => simp at hv'
          | vstruct _ => simp at hv'
    | vnat _ => simp [validC] at hv
    | vint _ => simp [validC] at hv
    | vbool _ => simp [validC] at hv
    | vbytes _ => simp [validC] at hv
    | vlist _ => simp [validC] at hv
    | vnone => simp [validC] at hv
  | deadSwitch =>
    intro acc v out _ hv hout rest
    cases v with
    | vnone =>
      simp only [buildC, Option.some.injEq] at hout
      subst hout
      simp [parseC]
    | vnat _ => simp [validC] at hv
    | vint _ => simp [validC] at hv
    | vbool _ => simp [validC] at hv
    | vbytes _ => simp [validC] at hv
    | vlist _ => simp [validC] at hv
    | vstruct _ => simp [validC] at hv
  | bitStructC fs =>
    intro acc v out _ hv hout rest
    cases v with
    | vstruct kvs =>
      simp only [validC, Bool.and_eq_true, decide_eq_true_eq] at hv
      obtain ⟨hvb, hsize⟩ := hv
      simp only [buildC] at hout
      cases hb : buildBits fs kvs with
      | none => rw [hb] at hout; simp at hout
      | some bits =>
        rw [hb] at hout
        have hlen : bits.length = 8 := by
          rw [buildBits_length fs kvs bits hvb hb, hsize]
        simp only [hlen, if_pos rfl, if_true, Option.some_bind,
          Option.some.injEq] at hout
        subst hout
        obtain ⟨hbits2, hparse⟩ := buildBits_parseBits fs kvs bits hvb hb
        simp only [List.cons_append, parseC]
        rw [bits8_byteOfBits_list bits hlen hbits2]
        have := hparse []
        rw [List.append_nil] at this
        rw [this]
        rfl
    | vnat _ => simp [validC] at hv
    | vint _ => simp [validC] at hv
    | vbool _ => simp [validC] at hv
    | vbytes _ => simp [validC] at hv
    | vlist _ => simp [validC] at hv
    | vnone => simp [validC] at hv
  | spectatorBits =>
    intro acc v out _ hv hout rest
    cases v with
    | vlist vs =>
      simp only [validC, Bool.and_eq_true, decide_eq_true_eq,
        List.all_eq_true] at hv
      have hval : ∀ x ∈ vs, ∃ g, x = Value.vbytes g ∧ g.length = 4 ∧
          ∀ b ∈ g, b < 2 := by
        intro x hx
        have h := hv.2 x hx
        cases x with
        | vbytes g =>
          simp only [Bool.and_eq_true, decide_eq_true_eq, List.all_eq_true,
            decide_eq_true_eq] at h
          exact ⟨g, rfl, h.1, h.2⟩
        | vnat _ => simp at h
        | vint _ => simp at h
        | vbool _ => simp at h
        | vlist _ => simp at h
        | vstruct _ => simp at h
        | vnone => simp at h
      simp only [buildC, if_pos hv.1] at hout
      cases hg : extractGroups vs with
      | none => rw [hg] at hout; simp at hout
      | some gs =>
        rw [hg] at hout
        simp only [Option.map_some', Option.some.injEq] at hout
        subst hout
        obtain ⟨hlen, hmapped⟩ := spectator_roundtrip_aux vs.length vs gs
          (le_refl _) (by rw [hv.1]) hval hg
        simp only [parseC]
        rw [takeN_append 4 _ rest (by rw [hlen, hv.1])]
        simp only [Option.map_some']
        rw [hmapped]
    | vnat _ => simp [validC] at hv
    | vint _ => simp [validC] at hv
    | vbool _ => simp [validC] at hv
    | vbytes _ => simp [validC] at hv
    | vstruct _ => simp [validC] at hv
    | vnone => simp [validC] at hv

set_option maxHeartbeats 2000000 in
/-- Core round trip, frame form: a tail-safe schema parses its built bytes
exactly, leaving no remainder. -/
theorem parse_build_tail (c : Con) :
    ∀ acc v out, tailsafe c = true → validC c acc v = true →
      buildC c acc v = some out →
      parseC c acc out = some (v, []) := by
  induction c with
  | uint size le =>
    intro acc v out hts hv hout
    simp only [tailsafe] at hts
    have h := parse_build_suffix _ acc v out hts hv hout []
    rwa [List.append_nil] at h
  | int8sb =>
    intro acc v out hts hv hout
    simp only [tailsafe] at hts
    have h := parse_build_suffix _ acc v out hts hv hout []
    rwa [List.append_nil] at h
  | flag =>
    intro acc v out hts hv hout
    simp only [tailsafe] at hts
    have h := parse_build_suffix _ acc v out hts hv hout []
    rwa [List.append_nil] at h
  | bytesN n =>
    intro acc v out hts hv hout
    simp only [tailsafe] at hts
    have h := parse_build_suffix _ acc v out hts hv hout []
    rwa [List.append_nil] at h
  | arrayN n c _ =>
    intro acc v out hts hv hout
    simp only [tailsafe] at hts
    have h := parse_build_suffix _ acc v out hts hv hout []
    rwa [List.append_nil] at h
  | pascalString =>
    intro acc v out hts hv hout
    simp only [tailsafe] at hts
    have h := parse_build_suffix _ acc v out hts hv hout []
    rwa [List.append_nil] at h
  | cstring =>
    intro acc v out hts hv hout
    simp only [tailsafe] at hts
    have h := parse_build_suffix _ acc v out hts hv hout []
    rwa [List.append_nil] at h
  | greedyBytes =>
    intro acc v out _ hv hout
    cases v with
    | vbytes s =>
      simp only [buildC, Option.some.injEq] at hout
      subst hout
      simp [parseC]
    | vnat _ => simp [validC] at hv
    | vint _ => simp [validC] at hv
    | vbool _ => simp [validC] at hv
    | vlist _ => simp [validC] at hv
    | vstruct _ => simp [validC] at hv
    | vnone => simp [validC] at hv
  | prefixedArray c _ =>
    intro acc v out hts hv hout
    simp only [tailsafe] at hts
    have h := parse_build_suffix _ acc v out hts hv hout []
    rwa [List.append_nil] at h
  | greedyRange c _ =>
    intro acc v out hts hv hout
    simp only [tailsafe, Bool.and_eq_true] at hts
    cases v with
    | vlist vs =>
      simp only [validC, List.all_eq_true] at hv
      simp only [buildC] at hout
      have hr := parseRange_roundtrip (fun bs => parseC c [] bs)
        (fun v => buildC c [] v) (fun v => validC c [] v = true)
        (fun v bs hP hb r => parse_build_suffix c [] v bs hts.1 hP hb r)
        (failsEmpty_parse c hts.2 [])
        vs out (out.length + 1) (fun x hx => hv x hx) hout (Nat.lt_succ_self _)
      simp only [parseC]
      rw [hr]
    | vnat _ => simp [validC] at hv
    | vint _ => simp [validC] at hv
    | vbool _ => simp [validC] at hv
    | vbytes _ => simp [validC] at hv
    | vstruct _ => simp [validC] at hv
    | vnone => simp [validC] at hv
  | optionalC c ih =>
    intro acc v out hts hv hout
    simp only [tailsafe] at hts
    simp only [validC] at hv
    simp only [buildC] at hout
    cases hb : buildC c [] v with
    | none =>
      have := validC_buildC_isSome c [] v hv
      rw [hb] at this
      simp at this
    | some o =>
      rw [hb] at hout
      simp only [Option.some.injEq] at hout
      subst hout
      simp only [parseC]
      rw [ih [] v o hts hv hb]
  | snil =>
    intro acc v out hts hv hout
    simp only [tailsafe] at hts
    have h := parse_build_suffix _ acc v out hts hv hout []
    rwa [List.append_nil] at h
  | scons name c rest' ihc ihrest =>
    intro acc v out hts hv hout
    simp only [tailsafe, Bool.or_eq_true, Bool.and_eq_true] at hts
    cases v with
    | vstruct kvs =>
      cases kvs with
      | nil => simp [validC] at hv
      | cons kv kvs' =>
        obtain ⟨n', v'⟩ := kv
        simp only [validC, Bool.and_eq_true, decide_eq_true_eq] at hv
        obtain ⟨⟨hn, hv'⟩, hrest⟩ := hv
        subst hn
        simp only [buildC, if_pos rfl] at hout
        cases hb1 : buildC c [] v' with
        | none => rw [hb1] at hout; simp at hout
        | some h =>
          rw [hb1] at hout
          cases hb2 : buildC rest' (acc ++ [(n', v')]) (.vstruct kvs') with
          | none => rw [hb2] at hout; simp at hout
          | some t =>
            rw [hb2] at hout
            simp only [if_true, Option.some_bind, Option.map_some',
              Option.some.injEq] at hout
            subst hout
            rcases hts with ⟨h1, h2⟩ | ⟨h1, h2⟩
            · simp only [parseC]
              rw [parse_build_suffix c [] v' h h1 hv' hb1 t]
              simp only [Option.some_bind]
              rw [ihrest (acc ++ [(n', v')]) (Value.vstruct kvs') t h2
                hrest hb2]
              rfl
            · cases rest' <;> simp only [isSnil, Bool.false_eq_true] at h2
              have ht : t = [] := by
                cases kvs' with
                | nil =>
                  simp only [buildC, Option.some.injEq] at hb2
                  exact hb2.symm
                | cons _ _ => simp [validC] at hrest
              subst ht
              rw [List.append_nil]
              simp only [parseC]
              rw [ihc [] v' h h1 hv' hb1]
              simp only [Option.some_bind, parseC]
              have hkvs : kvs' = [] := by
                cases kvs' with
                | nil => rfl
                | cons _ _ => simp [validC] at hrest
              subst hkvs
              rfl
    | vnat _ => simp [validC] at hv
    | vint _ => simp [validC] at hv
    | vbool _ => simp [validC] at hv
    | vbytes _ => simp [validC] at hv
    | vlist _ => simp [validC] at hv
    | vnone => simp [validC] at hv
  | sconsIf name dep c rest' ihc ihrest =>
    intro acc v out hts hv hout
    simp only [tailsafe, Bool.and_eq_true] at hts
    cases v with
    | vstruct kvs =>
      cases kvs with
      | nil => simp [validC] at hv
      | cons kv kvs' =>
        obtain ⟨n', v'⟩ := kv
        simp only [validC, Bool.and_eq_true, decide_eq_true_eq] at hv
        obtain ⟨⟨hn, hv'⟩, hrest⟩ := hv
        subst hn
        simp only [buildC, if_pos rfl] at hout
        cases hcond : truthy (lookupV dep acc) with
        | true =>
          rw [hcond] at hv' hout
          simp only [if_true] at hv' hout
          cases hb1 : buildC c [] v' with
          | none => rw [hb1] at hout; simp at hout
          | some h =>
            rw [hb1] at hout
            cases hb2 : buildC rest' (acc ++ [(n', v')]) (.vstruct kvs') with
            | none => rw [hb2] at hout; simp at hout
            | some t =>
              rw [hb2] at hout
              simp only [if_true, Option.some_bind, Option.map_some',
                Option.some.injEq] at hout
              subst hout
              simp only [parseC, hcond, if_true]
              rw [parse_build_suffix c [] v' h hts.1 hv' hb1 t]
              simp only [Option.some_bind]
              rw [ihrest (acc ++ [(n', v')]) (Value.vstruct kvs') t hts.2
                hrest hb2]
              rfl
        | false =>
          rw [hcond] at hv' hout
          simp only [Bool.false_eq_true, if_false] at hv' hout
          cases v' with
          | vnone =>
            cases hb2 : buildC rest' (acc ++ [(n', .vnone)]) (.vstruct kvs') with
            | none => rw [hb2] at hout; simp at hout
            | some t =>
              rw [hb2] at hout
              simp only [if_true, Option.some_bind, Option.map_some',
                Option.some.injEq] at hout
              subst hout
              simp only [parseC, hcond, Bool.false_eq_true, if_false,
                List.nil_append]
              rw [ihrest (acc ++ [(n', Value.vnone)]) (Value.vstruct kvs') t
                hts.2 hrest hb2]
              rfl
          | vnat _ => simp at hv'
          | vint _ => simp at hv'
          | vbool _ => simp at hv'
          | vbytes _ => simp at hv'
          | vlist _ => simp at hv'
          | vstruct _ => simp at hv'
    | vnat _ => simp [validC] at hv
    | vint _ => simp [validC] at hv
    | vbool _ => simp [validC] at hv
    | vbytes _ => simp [validC] at hv
    | vlist _ => simp [validC] at hv
    | vnone => simp [validC] at hv
  | deadSwitch =>
    intro acc v out hts hv hout
    simp only [tailsafe] at hts
    have h := parse_build_suffix _ acc v out hts hv hout []
    rwa [List.append_nil] at h
  | bitStructC fs =>
    intro acc v out hts hv hout
    simp only [tailsafe] at hts
    have h := parse_build_suffix _ acc v out hts hv hout []
    rwa [List.append_nil] at h
  | spectatorBits =>
    intro acc v out hts hv hout
    simp only [tailsafe] at hts
    have h := parse_build_suffix _ acc v out hts hv hout []
    rwa [List.append_nil] at h

/-! ### The packet catalog (game.py lines 499-889)

`construct` aliases: `Byte = Int8ub`, `Short = Int16ub`, `Int = Int32ub`.
`Default(c, v)` fields behave as `c` whenever the field is present; the
round-trip claim is stated modulo defaults, and `validC` requires presence,
so they are embedded as plain `c`. -/

def byteCon : Con := .uint 1 false
def shortCon : Con := .uint 2 false
def intCon : Con := .uint 4 false
def int16ulCon : Con := .uint 2 true
def int32ulCon : Con := .uint 4 true

/-- Modelled from the spec: `BIN_VERSIONSTRING` comes from `jj2.constants`,
which is not under src/; §4.1 lists `padded_string(N, ascii)` and scenario 3
shows the client version as the four bytes `"24  "`. -/
def binVersionString : Con := .bytesN 4

/-- Modelled from the spec: the game-domain enum fields (`BIN_GAMEMODE`,
`BIN_TEAM`, `BIN_CHAR`, `BIN_CHAT`, `BIN_DISCONNECTMESSAGE`, `BIN_GAMEEVENT`
of `jj2.constants`, not under src/) are treated by the codec as single-byte
tagged integers (spec §1, §2). -/
def binEnumByte : Con := byteCon

/-- Modelled from the spec: `BIN_PLUSTIMESTAMP` (jj2.constants, not under
src/), the 6-byte plus-version timestamp of PlusRequest (§4.2). -/
def binPlusTimestamp : Con := .bytesN 6

/-- Modelled from the spec: `BIN_SPECTATETARGET` (jj2.constants, not under
src/); scenario 5 decodes `spectate_target = -4`, a signed byte like the
adjacent `client_id=Int8sb`. -/
def binSpectateTarget : Con := .int8sb

/-- `player_array(client_id=...)` (game.py 576-593). -/
def playerArrayFields : Con :=
  .scons "player_id" byteCon (
  .scons "team" binEnumByte (
  .scons "character" binEnumByte (
  .scons "fur_colour" (.arrayN 4 byteCon) (
  .scons "sprite_mode" byteCon (
  .scons "sprite_mode_param" byteCon (
  .scons "light_type" byteCon (
  .scons "light_size" byteCon (
  .scons "antigrav_and_nofire" byteCon (
  .scons "unused" byteCon (
  .scons "rabbit_name" .cstring .snil))))))))))

def playerArray (clientId : Bool) : Con :=
  if clientId then .scons "client_id" byteCon playerArrayFields
  else playerArrayFields

/-- The concrete (non-abstract) packet classes of game.py.  `Password` and
`PasswordCheck` exist in the source; only their `@packet_id` registrations
are commented out, so they appear here but not in `gameImpls`. -/
inductive PacketCls where
  | ping | pong | query | queryReply | gameEvent | heartbeat
  | password | passwordCheck
  | clientDisconnect | clientDetails | joinRequest | serverDetails
  | playerList | gameInit | dlInit | dlChunk | downloadRequest
  | levelLoad | endOfLevel | updateEvents | serverStopped | updateRequest
  | chatMessage | plusRequest | plusDetails | consoleMessage
  | spectatorList | spectators | spectateRequest | gameState | latency
  | ready | resourceList
  deriving Repr, DecidableEq

open Con in
def schema : PacketCls → Con
  | .ping =>
    scons "number_in_list" byteCon (
    scons "unknown_data" (arrayN 4 byteCon) (
    scons "client_version" (arrayN 4 byteCon) snil))
  | .pong =>
    scons "number_in_list_from_ping" byteCon (
    scons "unknown_data" (arrayN 4 byteCon) (
    scons "game_mode_etc" byteCon snil))
  | .query => scons "number_in_list" byteCon snil
  | .queryReply =>
    scons "number_in_list" byteCon (
    scons "timer_sync" byteCon (
    scons "laps_on_timer_sync" byteCon (
    scons "unknown_data_1" (arrayN 2 byteCon) (
    scons "client_version" binVersionString (
    scons "player_count" byteCon (
    scons "unknown_data_2" byteCon (
    scons "game_mode" binEnumByte (
    scons "player_limit" byteCon (
    scons "server_name" pascalString (
    scons "unknown_data_3" byteCon snil))))))))))
  | .gameEvent =>
    scons "udp_count" byteCon (
    scons "event_id" binEnumByte (
    scons "event_data" greedyBytes snil))
  | .heartbeat =>
    scons "heartbeat_latency" byteCon (
    scons "heartbeat_cookie" greedyBytes snil)
  | .password => scons "password" pascalString snil
  | .passwordCheck => scons "password_ok" byteCon snil
  | .clientDisconnect =>
    scons "disconnect_message" binEnumByte (
    scons "client_id" int8sb (
    scons "client_version" binVersionString (
    scons "include_reason" (optionalC flag) (
    sconsIf "reason" "include_reason" pascalString snil))))
  | .clientDetails =>
    scons "client_id" byteCon (
    scons "local_players" (prefixedArray (playerArray false)) snil)
  | .joinRequest =>
    scons "udp_source_port" int16ulCon (
    scons "client_version" binVersionString (
    scons "number_of_local_players" byteCon snil))
  | .serverDetails =>
    scons "client_id" byteCon (
    scons "unknown" byteCon (
    scons "level_file_name" pascalString (
    scons "level_crc" intCon (
    scons "tileset_crc" intCon (
    scons "game_mode" binEnumByte (
    scons "max_score" byteCon (
    scons "extras" (optionalC (
      scons "level_challenge" (arrayN 4 byteCon) (
      scons "heartbeat_cookie" (arrayN 4 byteCon) (
      scons "plus_version" (arrayN 2 shortCon) (
      scons "music_crc" deadSwitch (
      scons "scripts" deadSwitch snil)))))) snil)))))))
  | .playerList =>
    scons "number_of_players" byteCon (
    scons "players" (greedyRange (playerArray true)) snil)
  | .gameInit => snil
  | .dlInit =>
    scons "packet_count" int32ulCon (
    scons "unknown_data" (arrayN 4 byteCon) (
    scons "file_name" pascalString snil))
  | .dlChunk =>
    scons "packet_count" int32ulCon (
    scons "file_content" greedyBytes snil)
  | .downloadRequest => scons "file_name" pascalString snil
  | .levelLoad =>
    scons "level_crc" intCon (
    scons "tileset_crc" intCon (
    scons "level_file_name" pascalString (
    scons "level_challenge" (arrayN 4 byteCon) (
    scons "is_different" flag (
    scons "music" byteCon (
    scons "music_crc" (arrayN 4 byteCon) (
    scons "script_data" (optionalC (arrayN 5 byteCon)) snil)))))))
  | .endOfLevel => scons "unknown_data" greedyBytes snil
  | .updateEvents =>
    scons "checksum" (optionalC shortCon) (
    scons "counter" (optionalC shortCon) (
    scons "unknown_data" (optionalC greedyBytes) snil))
  | .serverStopped => snil
  | .updateRequest => scons "level_challenge" (arrayN 4 byteCon) snil
  | .chatMessage =>
    scons "client_id" byteCon (
    scons "chat_type" binEnumByte (
    scons "text" greedyBytes snil))
  | .plusRequest => scons "plus_version" binPlusTimestamp snil
  | .plusDetails =>
    scons "unknown" byteCon (
    scons "health_info" byteCon (
    scons "plus_data" (bitStructC
      [("pad", .padding 4), ("no_blink", .bflag), ("no_movement", .bflag),
       ("friendly_fire", .bflag), ("plus_only", .bflag)]) snil))
  | .consoleMessage =>
    scons "message_type" byteCon (
    scons "content" greedyBytes snil)
  | .spectatorList => scons "spectators" spectatorBits snil
  | .spectators =>
    scons "spectators" (greedyRange (
      scons "is_out" flag (
      scons "client_id" int8sb (
      scons "spectate_target" binSpectateTarget snil)))) snil
  | .spectateRequest => scons "spectating" byteCon snil
  | .gameState =>
    scons "state" (bitStructC
      [("pad", .padding 5), ("in_overtime", .bbytes 2),
       ("game_started", .bflag)]) (
    scons "time_left" intCon snil)
  | .latency =>
    scons "latencies" (greedyRange (
      scons "player_id" byteCon (
      scons "latency" shortCon snil))) snil
  | .ready => snil
  | .resourceList =>
    scons "level_challenge" (arrayN 4 byteCon) (
    scons "script_data" (arrayN 5 byteCon) (
    scons "scripts" (greedyRange (
      scons "unknown_data" (arrayN 5 byteCon) (
      scons "filename" pascalString snil))) snil))

/-- Every schema of the catalog is tail-safe: greedy constructs appear only
in final position. -/
theorem schema_tailsafe (P : PacketCls) : tailsafe (schema P) = true := by
  cases P <;> rfl

/-- C4 (amended): for every concrete packet class `P` and every valid field
assignment `v` in which every optional field is explicitly present, decoding
the bytes produced by encoding `v` yields `v` again (equality of the decoded
container with the built one; `validC` requires optionals present, ranged
integers, cp1250-encodable strings, and dead-`Switch` fields absent). -/
theorem packet_decode_encode_roundtrip (P : PacketCls) (v : Value)
    (out : List Nat) (hv : validC (schema P) [] v = true)
    (hout : buildC (schema P) [] v = some out) :
    parseC (schema P) [] out = some (v, []) :=
  parse_build_tail (schema P) [] v out (schema_tailsafe P) hv hout

/-- Witness for C4 at a concrete input: a `Query` packet with
`number_in_list = 7` encodes to `[7]` and decodes back. -/
theorem packet_decode_encode_roundtrip_witness :
    parseC (schema .query) [] [7] =
      some (.vstruct [("number_in_list", .vnat 7)], []) :=
  packet_decode_encode_roundtrip .query (.vstruct [("number_in_list", .vnat 7)])
    [7] (by rfl) (by rfl)

/-- C4 counterexample: `UpdateEvents(unknown_data="AB")` is a valid field
assignment (`checksum` and `counter` are `Optional` and omitted, encoding
succeeds and yields `b"AB"`), but decoding those bytes consumes them as the
`checksum` field (`Short` 0x4142 = 16706) and returns a different
container: `decode(encode(v)) ≠ v`. -/
theorem updateEvents_roundtrip_fails :
    buildC (schema .updateEvents) []
      (.vstruct [("checksum", .vnone), ("counter", .vnone),
                 ("unknown_data", .vbytes [65, 66])]) = some [65, 66] ∧
    parseC (schema .updateEvents) [] [65, 66] =
      some (.vstruct [("checksum", .vnat 16706), ("counter", .vnone),
                      ("unknown_data", .vbytes [])], []) ∧
    (Value.vstruct [("checksum", .vnat 16706), ("counter", .vnone),
                    ("unknown_data", .vbytes [])] ≠
     Value.vstruct [("checksum", .vnone), ("counter", .vnone),
                    ("unknown_data", .vbytes [65, 66])]) := by
  refine ⟨rfl, ?_, by simp⟩
  simp [schema, parseC, takeN, beVal, leVal]

/-! ### `GamePayload` / `AbstractPayload` dispatch
(game.py 456-496, 672-833; jj2/lib/payload.py 95-171)

`GamePayload.load` strips the checksum prefix, parses the outer
`Struct(packet_id=Byte, buffer=GreedyBytes)`, picks the implementation class
registered for the tag (`has_default_implementation = False`, so an
unregistered tag raises `NotImplementedError`, which `handle_data` catches,
dropping the frame), and delegates the buffer to the sub-variant.  `Spectate`
and `PlusAcknowledgement` repeat the game for their own discriminants
(`packet_type` byte and `context.get("from_server", True)`); both override
`_impl_data` to hand the embedded buffer bytes on.  `DownloadingFile` does
not override `_impl_data`, so its sub-variant receives the outer `_data`
dict instead of bytes and `construct.parse` fails, which
`BinaryPayload._deserialize` wraps in `PayloadException`. -/

/-- The session attributes the abstract discriminants read:
`context.get("from_server", True)` (a `Session` property defaulting to
`True`) and `context.get("is_downloading", False)` (absent from `Session`,
so `Object.get` returns the default). -/
structure Ctx where
  from_server : Bool
  is_downloading : Bool
  deriving Repr, DecidableEq

inductive AbsCls where
  | spectate | plusAck | downloadingFile
  deriving Repr, DecidableEq

inductive TopImpl where
  | conc (P : PacketCls)
  | abs (A : AbsCls)
  deriving Repr, DecidableEq

/-- `GamePayload.impls`, as registered by the `@packet_id(...)` decorators
(`Password` 0x0A and `PasswordCheck` 0x0B are commented out). -/
def gameImpls : Nat → Option TopImpl
  | 0x03 => some (.conc .ping)
  | 0x04 => some (.conc .pong)
  | 0x05 => some (.conc .query)
  | 0x06 => some (.conc .queryReply)
  | 0x07 => some (.conc .gameEvent)
  | 0x09 => some (.conc .heartbeat)
  | 0x0D => some (.conc .clientDisconnect)
  | 0x0E => some (.conc .clientDetails)
  | 0x0F => some (.conc .joinRequest)
  | 0x10 => some (.conc .serverDetails)
  | 0x12 => some (.conc .playerList)
  | 0x13 => some (.conc .gameInit)
  | 0x14 => some (.abs .downloadingFile)
  | 0x15 => some (.conc .downloadRequest)
  | 0x16 => some (.conc .levelLoad)
  | 0x17 => some (.conc .endOfLevel)
  | 0x18 => some (.conc .updateEvents)
  | 0x19 => some (.conc .serverStopped)
  | 0x1A => some (.conc .updateRequest)
  | 0x1B => some (.conc .chatMessage)
  | 0x3F => some (.abs .plusAck)
  | 0x40 => some (.conc .consoleMessage)
  | 0x41 => some (.abs .spectate)
  | 0x42 => some (.conc .spectateRequest)
  | 0x45 => some (.conc .gameState)
  | 0x49 => some (.conc .latency)
  | 0x51 => some (.conc .ready)
  | 0x5A => some (.conc .resourceList)
  | _ => none

/-- `Spectate.impls` (`@Spectate.register(0)` / `(1)`). -/
def spectateImpls : Nat → Option PacketCls
  | 0 => some .spectatorList
  | 1 => some .spectators
  | _ => none

/-- `PlusAcknowledgement.impls` (`register(False)` / `register(True)`). -/
def plusImpls : Bool → PacketCls
  | false => .plusRequest
  | true => .plusDetails

/-- `DownloadingFile.impls` (`register(False)` / `register(True)`). -/
def dlImpls : Bool → PacketCls
  | false => .dlInit
  | true => .dlChunk

inductive LoadErr where
  /-- `PayloadException` raised by `BinaryPayload._(de)serialize`. -/
  | payloadExc
  /-- `NotImplementedError` raised by `AbstractPayload.pick`. -/
  | notImplemented
  deriving Repr, DecidableEq

/-- `GamePayload().deserialize(bytes, context)`: outer frame, pick, delegate
to the sub-variant (a concrete class's own `pick` returns `None` because
`BinaryPayload.has_default_implementation` is true, ending the recursion). -/
def deserializeGame (ctx : Ctx) (bytes : List Nat) :
    Except LoadErr (PacketCls × Value) :=
  match bytes with
  | [] => .error .payloadExc  -- Byte field of the outer struct has no input
  | tag :: buf =>
    match gameImpls tag with
    | none => .error .notImplemented
    | some (.conc P) =>
      match parseC (schema P) [] buf with
      | some (v, _) => .ok (P, v)  -- `construct.parse` ignores trailing bytes
      | none => .error .payloadExc
    | some (.abs .spectate) =>
      match buf with
      | [] => .error .payloadExc  -- Spectate's own packet_type byte missing
      | d :: inner =>
        match spectateImpls d with
        | none => .error .notImplemented
        | some P =>
          match parseC (schema P) [] inner with
          | some (v, _) => .ok (P, v)
          | none => .error .payloadExc
    | some (.abs .plusAck) =>
      match parseC (schema (plusImpls ctx.from_server)) [] buf with
      | some (v, _) => .ok (plusImpls ctx.from_server, v)
      | none => .error .payloadExc
    | some (.abs .downloadingFile) =>
      -- `_impl_data` is not overridden: the chunk class receives the outer
      -- `{'buffer': ...}` dict and `construct.parse` raises, wrapped in
      -- `PayloadException`, whichever chunk `context.is_downloading` picks.
      .error .payloadExc

/-- `Protocol.handle_data`: load and dispatch; only `NotImplementedError`
is caught (the frame is then dropped), `PayloadException` propagates.
`.ok (some p)` means `handle(p)` is invoked. -/
def handleDataGame (ctx : Ctx) (bytes : List Nat) :
    Except LoadErr (Option (PacketCls × Value)) :=
  match deserializeGame ctx bytes with
  | .ok p => .ok (some p)
  | .error .notImplemented => .ok none
  | .error .payloadExc => .error .payloadExc

/-- `GamePayload.load` (game.py 486-493).  When a checksum is passed, the
code compares `cls.checksum(serialized)` (over the whole datagram, prefix
included) with it and assigns `self = None` on mismatch — but the very next
line unconditionally overwrites `self` with the decoded payload, so the
comparison has no effect; the 2-byte prefix is stripped and decoding
proceeds either way. -/
def loadGameUdp (ctx : Ctx) (serialized : List Nat) (ck : Option (List Nat)) :
    Except LoadErr (Option (PacketCls × Value)) :=
  match ck with
  | some _ => handleDataGame ctx (serialized.drop 2)
  | none => handleDataGame ctx serialized

/-- `GameProtocol.datagram_received` (game.py 1017-1018): every datagram is
handed to `handle_data` with `checksum=data[:2]`. -/
def datagramReceived (ctx : Ctx) (data : List Nat) :
    Except LoadErr (Option (PacketCls × Value)) :=
  loadGameUdp ctx data (some (data.take 2))

/-- `GamePayload.struct`: `Struct(packet_id=Byte, buffer=GreedyBytes)`. -/
def gameOuterStruct : Con :=
  .scons "packet_id" byteCon (.scons "buffer" .greedyBytes .snil)

/-- `Spectate.struct`: `Struct(packet_type=Byte, buffer=GreedyBytes)`. -/
def spectateOuterStruct : Con :=
  .scons "packet_type" byteCon (.scons "buffer" .greedyBytes .snil)

/-- Re-embedding through `GamePayload`: `implements =
GamePayload.from_dict({'buffer': serialized}); implements._set_impl_key(tag);
implements.serialize()` builds the outer struct. -/
def wrapGame (tag : Nat) (inner : List Nat) : Option (List Nat) :=
  buildC gameOuterStruct []
    (.vstruct [("packet_id", .vnat tag), ("buffer", .vbytes inner)])

/-- Re-embedding through `Spectate` (whose `impl_spec` is
`(GamePayload, 0x41)`, so its own `serialize` wraps once more). -/
def wrapSpectate (d : Nat) (inner : List Nat) : Option (List Nat) :=
  (buildC spectateOuterStruct []
    (.vstruct [("packet_type", .vnat d), ("buffer", .vbytes inner)])).bind
    (wrapGame 0x41)

/-- The six registered sub-variants of the three abstract packet classes. -/
inductive SubVariant where
  | dlInit | dlChunk | plusRequest | plusDetails | spectatorList | spectators
  deriving Repr, DecidableEq

def variantCls : SubVariant → PacketCls
  | .dlInit => .dlInit
  | .dlChunk => .dlChunk
  | .plusRequest => .plusRequest
  | .plusDetails => .plusDetails
  | .spectatorList => .spectatorList
  | .spectators => .spectators

/-- The outer tag under which the sub-variant's abstract class registers
with `GamePayload`. -/
def outerTag : SubVariant → Nat
  | .dlInit | .dlChunk => 0x14
  | .plusRequest | .plusDetails => 0x3F
  | .spectatorList | .spectators => 0x41

/-- The discriminant bytes the abstract class stores into the frame:
`Spectate._set_impl_key` writes its `packet_type` byte; the context-keyed
classes' `_set_impl_key` is a no-op, so no byte. -/
def discrBytes : SubVariant → List Nat
  | .spectatorList => [0]
  | .spectators => [1]
  | _ => []

/-- `AbstractPayload.serialize` for a registered sub-variant instance
(`impl_spec = (A, key)`, `impl_feeder` true): serialize the concrete
schema, then re-embed through the abstract class (and, for `Spectate`,
through `GamePayload` again). -/
def serializeVariant (sv : SubVariant) (v : Value) : Option (List Nat) :=
  (buildC (schema (variantCls sv)) [] v).bind fun inner =>
    match sv with
    | .spectatorList => wrapSpectate 0 inner
    | .spectators => wrapSpectate 1 inner
    | .plusRequest | .plusDetails => wrapGame 0x3F inner
    | .dlInit | .dlChunk => wrapGame 0x14 inner

/-- Whether decoding a frame of this sub-variant's abstract class reaches
the sub-variant at all (`DownloadingFile` decode always raises, its
`_impl_data` hands a dict to `construct`). -/
def decodeOK : SubVariant → Bool
  | .dlInit | .dlChunk => false
  | _ => true

/-- The context under which `pick` selects this sub-variant. -/
def ctxSelects : SubVariant → Ctx → Bool
  | .plusRequest, ctx => !ctx.from_server
  | .plusDetails, ctx => ctx.from_server
  | _, _ => true

set_option maxHeartbeats 1000000 in
/-- C7 (amended): for every registered sub-variant `V` of an abstract packet
class `A` under discriminant `d`, serializing a `V` instance yields exactly
`V`'s concrete encoding re-embedded in `A`'s outer frame (outer tag `A`'s
`packet_id`, with `Spectate`'s discriminant byte set to `d`; the
context-keyed classes store no discriminant byte, their `_set_impl_key` is a
no-op); and — except for `DownloadingFile`, whose decode path always raises
a codec error because its `_impl_data` hands the outer field dict, not
bytes, to the sub-variant — decoding a frame with `A`'s tag whose embedded
bytes are `d`-shaped, under a context selecting `d`, yields a `V` instance
with `V`'s fields. -/
theorem abstract_payload_roundtrip (sv : SubVariant) (v : Value)
    (inner : List Nat) (ctx : Ctx)
    (hv : validC (schema (variantCls sv)) [] v = true)
    (hinner : buildC (schema (variantCls sv)) [] v = some inner) :
    serializeVariant sv v = some (outerTag sv :: (discrBytes sv ++ inner)) ∧
    (decodeOK sv = true → ctxSelects sv ctx = true →
      deserializeGame ctx (outerTag sv :: (discrBytes sv ++ inner)) =
        .ok (variantCls sv, v)) := by
  have htail := parse_build_tail (schema (variantCls sv)) [] v inner
    (schema_tailsafe _) hv hinner
  constructor
  · cases sv <;>
      simp [serializeVariant, hinner, wrapGame, wrapSpectate, gameOuterStruct,
        spectateOuterStruct, buildC, byteCon, outerTag, discrBytes, beBytes,
        leBytes]
  · intro hok hctx
    cases sv with
    | dlInit => simp [decodeOK] at hok
    | dlChunk => simp [decodeOK] at hok
    | spectatorList =>
      simp only [outerTag, discrBytes, List.cons_append, List.nil_append]
      simp only [variantCls] at htail ⊢
      simp [deserializeGame, gameImpls, spectateImpls, htail]
    | spectators =>
      simp only [outerTag, discrBytes, List.cons_append, List.nil_append]
      simp only [variantCls] at htail ⊢
      simp [deserializeGame, gameImpls, spectateImpls, htail]
    | plusRequest =>
      simp only [ctxSelects, Bool.not_eq_true'] at hctx
      simp only [outerTag, discrBytes, List.nil_append]
      simp only [variantCls] at htail ⊢
      simp [deserializeGame, gameImpls, hctx, plusImpls, htail]
    | plusDetails =>
      simp only [ctxSelects] at hctx
      simp only [outerTag, discrBytes, List.nil_append]
      simp only [variantCls] at htail ⊢
      simp [deserializeGame, gameImpls, hctx, plusImpls, htail]

/-- Witness for C7 at spec scenario 5: a `Spectate` sub-variant `packet_type
= 1` with two records `{is_out=0, client_id=3, spectate_target=-4}` and
`{1, 4, -3}` round-trips through the abstract machinery. -/
theorem abstract_payload_roundtrip_witness :
    serializeVariant .spectators
      (.vstruct [("spectators", .vlist
        [.vstruct [("is_out", .vbool false), ("client_id", .vint 3),
                   ("spectate_target", .vint (-4))],
         .vstruct [("is_out", .vbool true), ("client_id", .vint 4),
                   ("spectate_target", .vint (-3))]])]) =
      some [0x41, 1, 0, 3, 252, 1, 4, 253] ∧
    deserializeGame ⟨true, false⟩ [0x41, 1, 0, 3, 252, 1, 4, 253] =
      .ok (.spectators, .vstruct [("spectators", .vlist
        [.vstruct [("is_out", .vbool false), ("client_id", .vint 3),
                   ("spectate_target", .vint (-4))],
         .vstruct [("is_out", .vbool true), ("client_id", .vint 4),
                   ("spectate_target", .vint (-3))]])]) := by
  have h := abstract_payload_roundtrip .spectators
    (.vstruct [("spectators", .vlist
      [.vstruct [("is_out", .vbool false), ("client_id", .vint 3),
                 ("spectate_target", .vint (-4))],
       .vstruct [("is_out", .vbool true), ("client_id", .vint 4),
                 ("spectate_target", .vint (-3))]])])
    [0, 3, 252, 1, 4, 253] ⟨true, false⟩ (by rfl) (by rfl)
  exact ⟨h.1, h.2 rfl rfl⟩

/-- C7 counterexample: the embedded bytes of a `DownloadingFile` init chunk
(`packet_count=1`, zero `unknown_data`, `file_name="a"`) are `d`-shaped for
the context's `is_downloading=False`, yet decoding the frame `0x14 ∥ inner`
raises `PayloadException` instead of yielding a `_DownloadingFileInit`
instance: `DownloadingFile` lacks the `_impl_data` override. -/
theorem downloadingFile_decode_raises :
    parseC (schema .dlInit) [] [1, 0, 0, 0, 0, 0, 0, 0, 1, 97] =
      some (.vstruct [("packet_count", .vnat 1),
        ("unknown_data", .vlist [.vnat 0, .vnat 0, .vnat 0, .vnat 0]),
        ("file_name", .vbytes [97])], []) ∧
    deserializeGame ⟨true, false⟩ (0x14 :: [1, 0, 0, 0, 0, 0, 0, 0, 1, 97]) =
      .error .payloadExc := by
  constructor
  · simp [schema, parseC, parseTimes, takeN, leVal, beVal]
  · rfl

/-! ### TCP transport driver (game.py 957-1015) -/

/-- `GameProtocol.send`: length-prefix framing of one packet body (the body
already starts with the tag byte).  `length = len(data) + 1`; over 255 the
escape byte 0 is written and the u16 little-endian field carries
`length + 2 = len(data) + 3`. -/
def sendFrame (data : List Nat) : List Nat :=
  let length := data.length + 1
  if length > 255 then [0] ++ leBytes 2 (length + 2) ++ data
  else [length] ++ data

structure TcpState where
  buffer : List Nat
  deficit : Nat
  deriving Repr, DecidableEq

/-- `GameProtocol.data_received`, one chunk (fuelled for the tail-recursion
on the remaining bytes at line 1015).  Returns the new state and the frames
handed to `handle_data`, or `none` where the Python raises (empty chunk, or
an escape header with fewer than two following bytes, where
`Int16ul.parse(data[1:3])` fails).  Mirrored from the source:

* `deficit == 0`: read the header; `elength` is the expected frame length;
  `diff = elength - length` clamps at 0, truncating `eof` to `elength`;
* `deficit > 0`: with `length < deficit` the whole chunk is buffered;
  otherwise the code runs `eof -= deficit`, i.e. `eof = length - deficit`,
  and buffers `data[0:eof]`;
* when the deficit reaches 0 the buffer is delivered, cleared, and any
  `data[eof:]` tail is re-fed. -/
def dataReceivedF : Nat → TcpState → List Nat → Option (TcpState × List (List Nat))
  | 0, _, _ => none
  | fuel + 1, st, data =>
    match data with
    | [] => none  -- `data[0]` raises IndexError
    | d0 :: _ =>
      let length := data.length
      if st.deficit = 0 then
        let hdr : Option (Nat × Nat) :=  -- (bof, elength)
          if d0 = 0 then
            match data with
            | _ :: b1 :: b2 :: _ => some (3, leVal [b1, b2] + 3)
            | _ => none
          else some (1, d0)
        match hdr with
        | none => none
        | some (bof, elength) =>
          let eof := if elength < length then elength else length
          let deficit := if elength < length then 0 else elength - length
          let buffer := st.buffer ++ (data.take eof).drop bof
          if deficit = 0 then
            if eof < length then
              match dataReceivedF fuel ⟨[], 0⟩ (data.drop eof) with
              | none => none
              | some (st', frames) => some (st', buffer :: frames)
            else some (⟨[], 0⟩, [buffer])
          else some (⟨buffer, deficit⟩, [])
      else
        if length < st.deficit then
          some (⟨st.buffer ++ data, st.deficit - length⟩, [])
        else
          let eof := length - st.deficit
          let buffer := st.buffer ++ data.take eof
          if eof < length then
            match dataReceivedF fuel ⟨[], 0⟩ (data.drop eof) with
            | none => none
            | some (st', frames) => some (st', buffer :: frames)
          else some (⟨[], 0⟩, [buffer])

/-- One `data_received` call; the recursion depth is bounded by twice the
chunk length (a zero-`eof` drain step recurses once at full length, after
which every step strictly consumes). -/
def dataReceived (st : TcpState) (data : List Nat) :
    Option (TcpState × List (List Nat)) :=
  dataReceivedF (2 * data.length + 2) st data

/-- Feed successive TCP chunks, collecting every frame handed to
`handle_data`. -/
def feedChunks (st : TcpState) :
    List (List Nat) → Option (TcpState × List (List Nat))
  | [] => some (st, [])
  | c :: cs =>
    (dataReceived st c).bind fun r =>
      (feedChunks r.1 cs).map fun r' => (r'.1, r.2 ++ r'.2)

/-- C2 (code bug): the body `[0x19, 1, 2, 3]` framed by the sender as
`[5, 0x19, 1, 2, 3]` and fed to the reassembler split into chunks
`[5, 0x19, 1]` and `[2, 3]` is NOT delivered as `[0x19, 1, 2, 3]`: the
drain branch runs `eof -= deficit` (line 1002; `eof = deficit` was meant),
delivering the truncated frame `[0x19, 1]` and re-parsing the tail `[2, 3]`
as a fresh frame, which delivers `[3]`. -/
theorem tcp_split_frame_truncated :
    sendFrame [0x19, 1, 2, 3] = [5, 0x19, 1] ++ [2, 3] ∧
    feedChunks ⟨[], 0⟩ [[5, 0x19, 1], [2, 3]] =
      some (⟨[], 0⟩, [[0x19, 1], [3]]) ∧
    [[0x19, 1], [3]] ≠ [[(0x19 : Nat), 1, 2, 3]] := by
  refine ⟨by decide, by decide, by simp⟩

/-- C9 (amended): the two-byte TCP input `0x02 0x19` (length byte 2: a
2-byte frame including the length byte, body the single tag `0x19`) makes
the reassembler deliver exactly one frame, `[0x19]`, leave the buffer empty
with no deficit and no tail, and `handle_data` decodes it to one
`ServerStopped` (tag 0x19, empty schema).  The spec's scenario writes the
length byte as 0x05, but a frame declaring length 5 with only two bytes
present is merely buffered (see the counterexample). -/
theorem tcp_short_frame_delivers_server_stopped :
    dataReceived ⟨[], 0⟩ [2, 0x19] = some (⟨[], 0⟩, [[0x19]]) ∧
    handleDataGame ⟨true, false⟩ [0x19] =
      .ok (some (.serverStopped, .vstruct [])) := by
  constructor
  · decide
  · simp [handleDataGame, deserializeGame, gameImpls, parseC, schema]

/-- C9 counterexample: feeding the spec's bytes `0x05 0x19` in one chunk
delivers nothing — the length byte 5 declares a five-byte frame, so the
reassembler buffers `[0x19]` and waits with a deficit of 3; no
`ServerStopped` is handled and the buffer is not empty. -/
theorem tcp_frame_05_19_not_delivered :
    dataReceived ⟨[], 0⟩ [5, 0x19] = some (⟨[0x19], 3⟩, []) := by
  decide

/-- C1 (code bug): a Ping datagram with its first checksum-prefix byte
flipped (spec scenario 4: prefix `[170, 0]` instead of the body checksum
`[171, 0]`) fails the code's own checksum comparison, yet
`datagram_received` still decodes it and hands a Ping to `handle`: the
`self = None` drop in `GamePayload.load` is dead, overwritten by the
unconditional `self = super().load(...)` on the next line. -/
theorem udp_checksum_mismatch_still_handled :
    checksum [3, 1, 0, 0, 0, 0, 50, 52, 32, 32] = [171, 0] ∧
    checksum (170 :: 0 :: [3, 1, 0, 0, 0, 0, 50, 52, 32, 32]) ≠
      (170 :: 0 :: [3, 1, 0, 0, 0, 0, 50, 52, 32, 32]).take 2 ∧
    datagramReceived ⟨true, false⟩ (170 :: 0 :: [3, 1, 0, 0, 0, 0, 50, 52, 32, 32]) =
      .ok (some (.ping, .vstruct
        [("number_in_list", .vnat 1),
         ("unknown_data", .vlist [.vnat 0, .vnat 0, .vnat 0, .vnat 0]),
         ("client_version", .vlist [.vnat 50, .vnat 52, .vnat 32, .vnat 32])])) := by
  refine ⟨by decide, by decide, ?_⟩
  simp [datagramReceived, loadGameUdp, handleDataGame, deserializeGame,
    gameImpls, parseC, schema, parseTimes, takeN, beVal, leVal, byteCon]

/-! ### Handler dispatch (jj2/lib/protocol.py)

`Protocol.handle` collects the matching handler cases in registration order
and pushes each onto a plain list with `heapq.heappush`;
`_PrioritizedHandler.__lt__` compares `-self.priority < -other.priority`
(`Priority`: DAEMON=0, NORMAL=1, IMPORTANT=2, URGENT=3).  `call_handlers`
then iterates the heap's underlying array with `for handler in handlers:` —
it never pops — so handlers run in the heap's array order. -/

structure PHandler where
  priority : Nat
  /-- identifies the handler, so the invocation order can be observed. -/
  tag : Nat
  deriving Repr, DecidableEq

/-- `_PrioritizedHandler.__lt__`: `-self.priority < -other.priority`. -/
def phlt (a b : PHandler) : Bool := b.priority < a.priority

/-- CPython `heapq._siftdown(heap, startpos, pos)` with
`newitem = heap[pos]`; fuelled (the position strictly decreases). -/
def siftdownGo : Nat → Array PHandler → Nat → PHandler → Nat → Array PHandler
  | 0, heap, _, newitem, pos => heap.setD pos newitem
  | fuel + 1, heap, startpos, newitem, pos =>
    if startpos < pos then
      let parentpos := (pos - 1) / 2
      let parent := heap.getD parentpos newitem
      if phlt newitem parent then
        siftdownGo fuel (heap.setD pos parent) startpos newitem parentpos
      else heap.setD pos newitem
    else heap.setD pos newitem

/-- CPython `heapq.heappush`: append, then sift down from the last slot. -/
def heappush (heap : Array PHandler) (item : PHandler) : Array PHandler :=
  let heap := heap.push item
  siftdownGo heap.size heap 0 item (heap.size - 1)

/-- `handle` pushes the collected cases in registration order;
`call_handlers` iterates the resulting array front to back. -/
def invocationOrder (regs : List PHandler) : List PHandler :=
  (regs.foldl heappush #[]).toList

/-- C5 (code bug): three handlers registered for one packet in the order
DAEMON (tag 0), NORMAL (tag 1), URGENT (tag 2) are invoked in priority
order `[URGENT, DAEMON, NORMAL]` = `[3, 0, 1]` — not the strictly
decreasing `[3, 1, 0]` the spec promises — because `call_handlers` iterates
the heap's array (`[u, d, n]` after the three pushes) instead of popping
it. -/
theorem handler_order_not_priority_sorted :
    (invocationOrder [⟨0, 0⟩, ⟨1, 1⟩, ⟨3, 2⟩]).map PHandler.priority =
      [3, 0, 1] ∧
    ([3, 0, 1] : List Nat) ≠ [3, 1, 0] := by
  exact ⟨by decide, by decide⟩

/-! ### `call_handlers` / `call_handler` (protocol.py 290-306) -/

/-- Result of one handler body: a return value or a raised exception. -/
inductive HRes where
  | ok (v : Option Nat)
  | raise

/-- A handler case as `_PrioritizedHandler.__call__` adapts it: the function
receives the previous value only when flagged `takes_previous_value`
(modelled as the `Option` argument; values are `Option Nat`, `None` being
the nil sentinel). -/
structure CHandler where
  takesPrev : Bool
  fn : Option (Option Nat) → HRes

/-- The argument adaptation of `__call__`
(`if self.takes_previous_value: args.append(previous_value)`). -/
def callArg (h : CHandler) (previous : Option Nat) : Option (Option Nat) :=
  if h.takesPrev then some previous else none

/-- `Protocol.call_handler`: `new_value = handler(...)`; on an exception the
value is left unchanged and `on_error` runs (second component). -/
def callHandler (value : Option Nat) (h : CHandler) : Option Nat × Bool :=
  match h.fn (callArg h value) with
  | .ok v => (v, false)
  | .raise => (value, true)

/-- The value `call_handlers` passes to the i-th handler of the invocation
sequence (the running `value`, starting at `None`). -/
def prevValueAt (hs : List CHandler) (i : Nat) : Option Nat :=
  (hs.take i).foldl (fun v h => (callHandler v h).1) none

/-- The invocation indices at which `on_error(payload)` runs. -/
def raisedIndices (hs : List CHandler) : List Nat :=
  (List.range hs.length).filter fun i =>
    match hs.get? i with
    | some h => (callHandler (prevValueAt hs i) h).2
    | none => false

/-- C6 (amended): during one packet's dispatch the running value starts at
the nil sentinel; a handler flagged `takes_previous_value` receives exactly
the value produced by the handler invoked immediately before it (NOT
necessarily the immediately higher-priority one — see the counterexample,
the invocation order is the heap's array order); a normal return becomes
the next previous value; a raised exception triggers `on_error`, does not
propagate, and leaves the previous value unchanged. -/
theorem dispatch_previous_value_chain (hs : List CHandler) :
    prevValueAt hs 0 = none ∧
    ∀ i h, hs.get? i = some h →
      callArg h (prevValueAt hs i) =
        (if h.takesPrev then some (prevValueAt hs i) else none) ∧
      (∀ v, h.fn (callArg h (prevValueAt hs i)) = HRes.ok v →
        prevValueAt hs (i + 1) = v) ∧
      (h.fn (callArg h (prevValueAt hs i)) = HRes.raise →
        prevValueAt hs (i + 1) = prevValueAt hs i ∧ i ∈ raisedIndices hs) := by
  refine ⟨rfl, ?_⟩
  intro i h hget
  have hget' : hs[i]? = some h := by
    rw [← List.get?_eq_getElem?]
    exact hget
  have hstep : prevValueAt hs (i + 1) =
      (callHandler (prevValueAt hs i) h).1 := by
    simp only [prevValueAt, List.take_succ, hget', Option.toList_some,
      List.foldl_append, List.foldl_cons, List.foldl_nil]
  refine ⟨rfl, ?_, ?_⟩
  · intro v hok
    rw [hstep]
    simp [callHandler, hok]
  · intro hraise
    constructor
    · rw [hstep]
      simp [callHandler, hraise]
    · have hlen : i < hs.length := (List.get?_eq_some.mp hget).1
      refine List.mem_filter.mpr ⟨List.mem_range.mpr hlen, ?_⟩
      simp [raisedIndices, hget', hget, callHandler, hraise]

/-- Witness for C6 at a concrete input: with a first handler that raises and
a second flagged `takes_previous_value`, the second still receives the nil
sentinel (the raise left the value unchanged) and `on_error` ran at index
0. -/
theorem dispatch_previous_value_chain_witness :
    prevValueAt [⟨false, fun _ => HRes.raise⟩,
      ⟨true, fun a => HRes.ok (a.getD none)⟩] 1 =
      prevValueAt [⟨false, fun _ => HRes.raise⟩,
        ⟨true, fun a => HRes.ok (a.getD none)⟩] 0 ∧
    0 ∈ raisedIndices [⟨false, fun _ => HRes.raise⟩,
      ⟨true, fun a => HRes.ok (a.getD none)⟩] :=
  ((dispatch_previous_value_chain
    [⟨false, fun _ => HRes.raise⟩, ⟨true, fun a => HRes.ok (a.getD none)⟩]).2
    0 ⟨false, fun _ => HRes.raise⟩ rfl).2.2 rfl

/-- C6 counterexample: handlers registered in order DAEMON (returns
`some 0`), NORMAL (flagged `takes_previous_value`), URGENT (returns
`some 3`) run in the order URGENT, DAEMON, NORMAL (the heap-array order,
see C5), so the NORMAL handler receives DAEMON's return `some 0` — the
return of a LOWER-priority handler — and not `some 3`, the return of the
immediately higher-priority URGENT handler, refuting the claim as
stated. -/
theorem previous_value_not_priority_neighbor :
    (invocationOrder [⟨0, 0⟩, ⟨1, 1⟩, ⟨3, 2⟩]).map PHandler.tag = [2, 0, 1] ∧
    callArg ⟨true, fun a => HRes.ok (a.getD none)⟩
      (prevValueAt [⟨false, fun _ => HRes.ok (some 3)⟩,
        ⟨false, fun _ => HRes.ok (some 0)⟩,
        ⟨true, fun a => HRes.ok (a.getD none)⟩] 2) = some (some 0) ∧
    some (some 0) ≠ some (some (3 : Nat)) := by
  exact ⟨by decide, rfl, by decide⟩

/-! ### `configure()` and the `ALL_PAYLOADS` abort (protocol.py 131-166)

`Protocol.__init__` runs `self.configure(**config)` and only afterwards
sets `self._aborted = False`, so a construction-time abort would be erased;
and in `configure`'s registry loop both branches call
`payload_cls.on_register(...)` before `self._aborted = True` could run.
`ALL_PAYLOADS` is an instance of an empty class with no `on_register`
attribute, so evaluating its entry raises `AttributeError` first
(moreover `Protocol.register` cannot even add it: `issubclass(ALL_PAYLOADS,
Payload)` raises `TypeError` on a non-class argument). -/

inductive Registrar where
  /-- a `Payload` subclass (which has `on_register`). -/
  | payloadCls (id : Nat)
  /-- the `ALL_PAYLOADS` sentinel: `type('_all_payloads', (), {})()`. -/
  | allPayloads
  deriving Repr, DecidableEq

/-- Outcome of the registry loop of `configure()`, carrying the final value
of `_aborted`: the loop completes, or an `AttributeError` escapes with the
flag as it was. -/
inductive ConfigureResult where
  | ok (aborted : Bool)
  | attrError (aborted : Bool)
  deriving Repr, DecidableEq

/-- The registry loop over `(payload_cls, condition)` pairs (a `none`
condition means no gate, i.e. `check = True`; `some b` a gate evaluating to
`b` on `(self, None)`).  For a `Payload` class, `on_register` marks or
unmarks support and the loop continues — a failing check never aborts.  For
the sentinel, `on_register` does not exist: `AttributeError` is raised in
either branch, before the `self._aborted = True` line. -/
def configureLoop : List (Registrar × Option Bool) → Bool → ConfigureResult
  | [], ab => .ok ab
  | (r, _) :: rest, ab =>
    match r with
    | .payloadCls _ => configureLoop rest ab
    | .allPayloads => .attrError ab

/-- What `Protocol.handle(payload)` does before any handler runs. -/
inductive HandleOutcome where
  /-- `if self._aborted: return` — silent drop, nothing invoked. -/
  | droppedSilently
  /-- `on_unknown_case(payload)` for an unsupported payload class. -/
  | unknownCase
  /-- the collected handlers are invoked. -/
  | ran (hs : List CHandler)

/-- `Protocol.handle`, lines 215-220, abstracted over the handler table. -/
def handleModel (aborted supported : Bool) (collected : List CHandler) :
    HandleOutcome :=
  if aborted then .droppedSilently
  else if supported then .ran collected else .unknownCase

/-- C8 (amended): a registrar marked `ALL_PAYLOADS` that `configure()`
reaches makes the registry loop raise `AttributeError` (the sentinel has no
`on_register`) and leaves the aborted flag unchanged — the flag is never
set by `configure()`; whenever the aborted flag IS set on a protocol, every
packet passed to `handle()` is dropped silently, no handler runs. -/
theorem aborted_drop_and_sentinel_raises :
    (∀ (pre : List (Registrar × Option Bool)) (gate : Option Bool)
       (rest : List (Registrar × Option Bool)) (ab : Bool),
      (∀ r ∈ pre, r.1 ≠ Registrar.allPayloads) →
      configureLoop (pre ++ (Registrar.allPayloads, gate) :: rest) ab =
        .attrError ab) ∧
    (∀ (supported : Bool) (collected : List CHandler),
      handleModel true supported collected = .droppedSilently) := by
  constructor
  · intro pre gate rest ab hpre
    induction pre with
    | nil => rfl
    | cons p pre ih =>
      obtain ⟨r, cond⟩ := p
      cases r with
      | payloadCls id =>
        simp only [List.cons_append, configureLoop]
        exact ih fun x hx => hpre x (by simp [hx])
      | allPayloads =>
        exact absurd rfl (hpre (Registrar.allPayloads, cond) (by simp))
  · intro supported collected
    rfl

/-- Witness for C8 at a concrete input: one ordinary registrar followed by
the failing `ALL_PAYLOADS` sentinel raises without setting the flag, and an
aborted protocol drops a packet silently. -/
theorem aborted_drop_and_sentinel_raises_witness :
    configureLoop [(Registrar.payloadCls 1, some true),
      (Registrar.allPayloads, some false)] false =
      ConfigureResult.attrError false ∧
    handleModel true true [⟨false, fun _ => HRes.ok none⟩] =
      HandleOutcome.droppedSilently := by
  exact ⟨(aborted_drop_and_sentinel_raises).1
    [(Registrar.payloadCls 1, some true)] (some false) [] false
    (by intro r hr; simp at hr; simp [hr]),
    (aborted_drop_and_sentinel_raises).2 true [⟨false, fun _ => HRes.ok none⟩]⟩

/-- C8 counterexample: a registry holding an `ALL_PAYLOADS` registrar whose
gate fails does not set the aborted flag during `configure()` — the loop
raises `AttributeError` with the flag still `false` (and even a
construction-time abort would be erased by `__init__`'s trailing
`self._aborted = False`); the claim says the flag is set. -/
theorem sentinel_gate_failure_does_not_set_aborted :
    configureLoop [(Registrar.allPayloads, some false)] false =
      ConfigureResult.attrError false ∧
    ConfigureResult.attrError false ≠ ConfigureResult.ok true := by
  exact ⟨rfl, by decide⟩

/-! ### `Latency.data` (game.py 857-867; jj2/lib/payload.py 19-20) -/

structure LatEntry where
  player_id : Nat
  latency : Nat
  deriving Repr, DecidableEq

/-- `Latency.data`: `super().data(...)` returns `self._data` itself (not a
copy), and with `deserialization` left at its default `True` the loop
`latency_details["latency"] >>= 8` mutates every entry in place — the
returned container (first component) is also the new stored state (second
component). -/
def latencyData (entries : List LatEntry) (deserialization : Bool) :
    List LatEntry × List LatEntry :=
  if deserialization then
    let e := entries.map fun x => { x with latency := x.latency >>> 8 }
    (e, e)
  else (entries, entries)

/-- The latency entries of a decoded `Latency` container. -/
def entriesOfValue : Value → Option (List LatEntry)
  | .vstruct [("latencies", .vlist vs)] =>
    vs.mapM fun v =>
      (match v with
       | Value.vstruct [("player_id", .vnat p), ("latency", .vnat l)] =>
         some ⟨p, l⟩
       | _ => none : Option LatEntry)
  | _ => none

/-- C10: reading a decoded `Latency`'s data is not idempotent.  Each
`data()` call (with `deserialization` defaulted) right-shifts every stored
latency by 8 in place, so on a decoded `Latency` with an entry whose
latency is at least 256, two successive `data()` calls return different
latency values at that entry. -/
theorem latency_data_not_idempotent (bytes : List Nat) (v : Value)
    (r : List Nat) (entries : List LatEntry) (i : Nat) (e : LatEntry)
    (hparse : parseC (schema .latency) [] bytes = some (v, r))
    (hentries : entriesOfValue v = some entries)
    (hi : entries.get? i = some e) (hlat : 256 ≤ e.latency) :
    (latencyData entries true).2 =
      entries.map (fun x => { x with latency := x.latency >>> 8 }) ∧
    (latencyData entries true).1.get? i ≠
      (latencyData (latencyData entries true).2 true).1.get? i := by
  constructor
  · rfl
  · simp only [latencyData, if_true, List.map_map, List.get?_map, hi,
      Option.map_some', ne_eq, Option.some.injEq, Function.comp]
    intro heq
    have hl : e.latency >>> 8 = (e.latency >>> 8) >>> 8 := by
      have := congrArg LatEntry.latency heq
      simpa using this
    have h1 : 1 ≤ e.latency / 2 ^ 8 := by
      have : 2 ^ 8 ≤ e.latency := by norm_num; omega
      exact Nat.one_le_div_iff (by norm_num) |>.mpr this
    have h2 : e.latency / 2 ^ 8 / 2 ^ 8 < e.latency / 2 ^ 8 :=
      Nat.div_lt_self (by omega) (by norm_num)
    omega

/-- Witness for C10 at a concrete input: the wire bytes `[1, 0x01, 0x00]`
decode to one entry `player_id=1, latency=256`; the first `data()` call
returns latency 1, the second 0. -/
theorem latency_data_not_idempotent_witness :
    (latencyData [⟨1, 256⟩] true).1.get? 0 ≠
      (latencyData (latencyData [⟨1, 256⟩] true).2 true).1.get? 0 :=
  (latency_data_not_idempotent [1, 1, 0]
    (.vstruct [("latencies", .vlist
      [.vstruct [("player_id", .vnat 1), ("latency", .vnat 256)]])])
    [] [⟨1, 256⟩] 0 ⟨1, 256⟩
    (by simp [schema, parseC, parseRangeGo, takeN, beVal, leVal])
    (by rfl) (by rfl) (by norm_num)).2

end JJ2
